import Mathlib

/-!
# JUCEUnrealBridge: note-event pool and synthesiser component

A shallow embedding of `Source/JUCEUnrealBridge/Public/Synthesis/UnrealSynthesiserComponent.h`.

Conventions of the embedding.

* C++ `int` values that are only stored and copied are `Int`; `float` and `double`
  values that are only stored, copied and scaled by the millisecond/second factor are
  exact rationals (`Rat`); rounding is outside the model.
* A pointer that is only tested against `nullptr` is a `Bool` (`true` = non-null).
* The reading of the clock, `juce::Time::getMillisecondCounterHiRes()`, is an explicit
  argument `now` (milliseconds) of every operation that reads it.
* The message collector is the sequence of messages handed to `addMessageToQueue`,
  oldest first.
* The timer registered under a slot's `NoteOffHandle` is kept with the slot: the handle
  is `none` when no timer is pending and `some deadline` (milliseconds) otherwise.
* What the source file calls but does not contain (the host timer facility, the
  collector's `reset` and `removeNextBlockOfMessages`, the synthesiser's
  `renderNextBlock` and the voice class) is modelled from the specification; each such
  definition says so in its comment. The waveform shape and the note frequency are
  parameters.
* A run of the pool is a list of events (`StartNoteEvent` calls, ticks, timer firings),
  each with its clock reading; the messages a run adds to the collector are logged with
  the slot that emitted them.
-/

namespace JUCEUnrealBridge

/-- The two kinds of MIDI message the component builds. -/
inductive MidiKind where
  | noteOn
  | noteOff
  deriving DecidableEq, Repr

/-- The arguments of `juce::MidiMessage::noteOn` / `noteOff` together with the time stamp
set by `setTimeStamp` (seconds). -/
structure MidiMessage where
  kind : MidiKind
  channel : Int
  noteNumber : Int
  velocity : Rat
  timeStamp : Rat
  deriving DecidableEq, Repr

namespace MidiMessage

/-- The call `juce::MidiMessage::noteOn (channel, note, velocity)`, time stamp not yet set. -/
def noteOn (channel noteNumber : Int) (velocity : Rat) : MidiMessage :=
  { kind := MidiKind.noteOn, channel := channel, noteNumber := noteNumber,
    velocity := velocity, timeStamp := 0 }

/-- The call `juce::MidiMessage::noteOff (channel, note, velocity)`, time stamp not yet set. -/
def noteOff (channel noteNumber : Int) (velocity : Rat) : MidiMessage :=
  { kind := MidiKind.noteOff, channel := channel, noteNumber := noteNumber,
    velocity := velocity, timeStamp := 0 }

/-- The call `m.setTimeStamp (t)`. -/
def setTimeStamp (m : MidiMessage) (t : Rat) : MidiMessage :=
  { m with timeStamp := t }

end MidiMessage

/-- The `juce::MidiMessageCollector` of the component: the queued messages, oldest first,
and the sample rate given to `reset`. -/
structure MidiMessageCollector where
  incomingMessages : List MidiMessage
  sampleRate : Rat
  deriving DecidableEq, Repr

namespace MidiMessageCollector

/-- The call `addMessageToQueue (m)`: the message joins the queue. -/
def addMessageToQueue (c : MidiMessageCollector) (m : MidiMessage) : MidiMessageCollector :=
  { c with incomingMessages := c.incomingMessages ++ [m] }

/-- Modelled from the spec: `reset (sampleRate)` of the collector, which is not part of
the source file; it restarts the collector's time tracking for the given sample rate with
an empty queue. -/
def reset (_c : MidiMessageCollector) (sampleRate : Rat) : MidiMessageCollector :=
  { incomingMessages := [], sampleRate := sampleRate }

end MidiMessageCollector

/-- A timer handle together with the timer registered under it: `none` when no timer is
pending, `some deadline` when a one-shot timer is pending that is due at `deadline` ms. -/
abbrev FTimerHandle := Option Rat

namespace FTimerManager

/-- Modelled from the spec: `ClearTimer (handle)` of the host timer facility, which is not
part of the source file; it cancels the pending callback, and is safe when none is
pending. -/
def ClearTimer (_handle : FTimerHandle) : FTimerHandle := none

/-- Modelled from the spec: `SetTimer (handle, object, callback, rate, loop = false)` of
the host timer facility, which is not part of the source file; it arms one deferred
callback that fires `rate` seconds after `now` (milliseconds). -/
def SetTimer (_handle : FTimerHandle) (now rate : Rat) : FTimerHandle :=
  some (now + rate * 1000)

end FTimerManager

/-- One pool slot, `UNoteEventInfo`, with the member defaults of the class declaration
(`MidiCollector` has no initialiser in the source; objects made by `NewObject` start
zero-filled, so it starts null). -/
structure UNoteEventInfo where
  TimerManager : Bool := false
  MidiCollector : Bool := false
  NoteOffHandle : FTimerHandle := none
  NoteLengthMs : Rat := 0
  NoteOnVelocity : Rat := 0
  NoteOffVelocity : Rat := 0
  MidiChannel : Int := 0
  MidiNote : Int := 0
  IsActive : Bool := false
  HasNoteOffScheduled : Bool := false
  deriving DecidableEq, Repr

namespace UNoteEventInfo

/-- The method `UNoteEventInfo::StartNote` called with the component's collector `c` at clock
reading `now`. -/
def StartNote (s : UNoteEventInfo) (c : MidiMessageCollector) (midiChannel midiNoteNumber : Int)
    (onVelocity offVelocity noteLengthMs now : Rat) : UNoteEventInfo × MidiMessageCollector :=
  let s1 : UNoteEventInfo :=
    { s with
      MidiCollector := true
      MidiChannel := midiChannel
      MidiNote := midiNoteNumber
      NoteOnVelocity := onVelocity
      NoteOffVelocity := offVelocity
      NoteLengthMs := noteLengthMs }
  let m := (MidiMessage.noteOn s1.MidiChannel s1.MidiNote s1.NoteOnVelocity).setTimeStamp (now * (1 / 1000))
  let c1 := c.addMessageToQueue m
  ({ s1 with IsActive := true, HasNoteOffScheduled := false }, c1)

/-- The method `UNoteEventInfo::ScheduleEndNote (timerManager)` at clock reading `now`. -/
def ScheduleEndNote (s : UNoteEventInfo) (timerManager : Bool) (now : Rat) : UNoteEventInfo :=
  if timerManager then
    let s1 := { s with TimerManager := timerManager }
    let s2 := { s1 with NoteOffHandle := FTimerManager.ClearTimer s1.NoteOffHandle }
    let s3 := { s2 with
                NoteOffHandle := FTimerManager.SetTimer s2.NoteOffHandle now (s2.NoteLengthMs * (1 / 1000)) }
    { s3 with HasNoteOffScheduled := true }
  else s

/-- The method `UNoteEventInfo::EndNote` at clock reading `now`; `c` is the component's collector,
the only collector a slot's `MidiCollector` pointer can hold. -/
def EndNote (s : UNoteEventInfo) (c : MidiMessageCollector) (now : Rat) :
    UNoteEventInfo × MidiMessageCollector :=
  let c1 :=
    if s.MidiCollector then
      c.addMessageToQueue
        ((MidiMessage.noteOff s.MidiChannel s.MidiNote s.NoteOffVelocity).setTimeStamp (now * (1 / 1000)))
    else c
  ({ s with
     MidiChannel := 0
     MidiNote := 0
     NoteOnVelocity := 0
     NoteOffVelocity := 0
     NoteLengthMs := 0
     IsActive := false
     HasNoteOffScheduled := false }, c1)

/-- The method `UNoteEventInfo::ClearTimer`. -/
def ClearTimer (s : UNoteEventInfo) : UNoteEventInfo :=
  if s.TimerManager then { s with NoteOffHandle := FTimerManager.ClearTimer s.NoteOffHandle }
  else s

/-- Modelled from the spec: the firing of the slot's deferred callback by the host timer
facility, which is not part of the source file. A pending one-shot timer whose deadline
has been reached is removed and its callback, `EndNote`, is invoked once; nothing happens
when no timer is pending or the deadline lies ahead. -/
def TimerFired (s : UNoteEventInfo) (c : MidiMessageCollector) (now : Rat) :
    UNoteEventInfo × MidiMessageCollector :=
  match s.NoteOffHandle with
  | some deadline =>
    if deadline ≤ now then EndNote { s with NoteOffHandle := none } c now else (s, c)
  | none => (s, c)

end UNoteEventInfo

/-- The slot pool, `UNoteEventPlayer`. -/
structure UNoteEventPlayer where
  NoteEvents : List UNoteEventInfo := []
  deriving DecidableEq, Repr

namespace UNoteEventPlayer

/-- The method `UNoteEventPlayer::ClearNoteOffTimers`. -/
def ClearNoteOffTimers (p : UNoteEventPlayer) : UNoteEventPlayer :=
  { p with NoteEvents := p.NoteEvents.map UNoteEventInfo.ClearTimer }

/-- The loop of `SetNumberOfNoteSlots`: `for (int i = 0; i < num; ++i) NoteEvents.Add (NewObject ...)`,
entered with `i` and `num - i = k` rounds to go. -/
def addNoteSlots : Nat → List UNoteEventInfo → List UNoteEventInfo
  | 0, slots => slots
  | k + 1, slots => addNoteSlots k (slots ++ [{}])

/-- The method `UNoteEventPlayer::SetNumberOfNoteSlots (num)`. -/
def SetNumberOfNoteSlots (p : UNoteEventPlayer) (num : Int) : UNoteEventPlayer :=
  let p1 := p.ClearNoteOffTimers
  let p2 : UNoteEventPlayer := { p1 with NoteEvents := [] }
  { p2 with NoteEvents := addNoteSlots num.toNat p2.NoteEvents }

/-- The loop of `FindAvailableNoteIndex` over the slots from index `i` on. -/
def findAvailableFrom : List UNoteEventInfo → Nat → Int
  | [], _ => -1
  | s :: rest, i => if !s.IsActive then (i : Int) else findAvailableFrom rest (i + 1)

/-- The method `UNoteEventPlayer::FindAvailableNoteIndex`. -/
def FindAvailableNoteIndex (p : UNoteEventPlayer) : Int :=
  findAvailableFrom p.NoteEvents 0

/-- The method `UNoteEventPlayer::StartNoteEvent`. -/
def StartNoteEvent (p : UNoteEventPlayer) (c : MidiMessageCollector) (midiChannel midiNoteNumber : Int)
    (onVelocity offVelocity noteTimeMs now : Rat) : UNoteEventPlayer × MidiMessageCollector :=
  let availableNoteIndex := p.FindAvailableNoteIndex
  if availableNoteIndex != -1 then
    match p.NoteEvents[availableNoteIndex.toNat]? with
    | some s =>
      let r := s.StartNote c midiChannel midiNoteNumber onVelocity offVelocity noteTimeMs now
      ({ p with NoteEvents := p.NoteEvents.set availableNoteIndex.toNat r.1 }, r.2)
    | none => (p, c)
  else (p, c)

/-- The method `UNoteEventPlayer::ScheduleNoteEndsForActiveNotes (timerManager)` at clock reading `now`. -/
def ScheduleNoteEndsForActiveNotes (p : UNoteEventPlayer) (timerManager : Bool) (now : Rat) :
    UNoteEventPlayer :=
  { p with
    NoteEvents := p.NoteEvents.map fun s =>
      if s.IsActive && !s.HasNoteOffScheduled then s.ScheduleEndNote timerManager now else s }

/-- The firing of the timer of slot `i` (see `UNoteEventInfo.TimerFired`); nothing happens
when the pool has no slot `i`. -/
def TimerFired (p : UNoteEventPlayer) (c : MidiMessageCollector) (i : Nat) (now : Rat) :
    UNoteEventPlayer × MidiMessageCollector :=
  match p.NoteEvents[i]? with
  | some s =>
    let r := s.TimerFired c now
    ({ p with NoteEvents := p.NoteEvents.set i r.1 }, r.2)
  | none => (p, c)

end UNoteEventPlayer

/-- The arguments of one `StartNoteEvent` call and the clock reading at the call. -/
structure NoteCall where
  midiChannel : Int
  midiNoteNumber : Int
  onVelocity : Rat
  offVelocity : Rat
  noteTimeMs : Rat
  now : Rat
  deriving DecidableEq, Repr

namespace NoteCall

/-- The NoteOn message a call emits when it finds a free slot. -/
def noteOnMessage (k : NoteCall) : MidiMessage :=
  { kind := MidiKind.noteOn, channel := k.midiChannel, noteNumber := k.midiNoteNumber,
    velocity := k.onVelocity, timeStamp := k.now / 1000 }

/-- A fresh slot after it has taken the call. -/
def startedSlot (k : NoteCall) : UNoteEventInfo :=
  { MidiCollector := true, MidiChannel := k.midiChannel, MidiNote := k.midiNoteNumber,
    NoteOnVelocity := k.onVelocity, NoteOffVelocity := k.offVelocity,
    NoteLengthMs := k.noteTimeMs, IsActive := true, HasNoteOffScheduled := false }

end NoteCall

/-- A sequence of `StartNoteEvent` calls issued one after the other, nothing in between. -/
def StartNoteEvents : List NoteCall → UNoteEventPlayer × MidiMessageCollector →
    UNoteEventPlayer × MidiMessageCollector
  | [], w => w
  | k :: ks, w =>
    StartNoteEvents ks
      (w.1.StartNoteEvent w.2 k.midiChannel k.midiNoteNumber k.onVelocity k.offVelocity
        k.noteTimeMs k.now)

/-- The waveform selector `WaveType`, an enumeration declared outside the source file,
by its integer value. -/
abbrev WaveType := Nat

/-- Modelled from the spec: the stage of the ADSR envelope of a voice; the voice class is
declared outside the source file. -/
inductive AdsrStage where
  | Idle
  | Attack
  | Decay
  | Sustain
  | Release
  deriving DecidableEq, Repr

/-- Modelled from the spec: one `UnrealWaveVoice`, a class declared outside the source
file. Its parameters are the waveform type, the attack, decay and release rates in
seconds and the sustain level. Its state is the envelope stage, the envelope level, the
oscillator phase, the assigned note (or none) with its channel, the time spent in the
current stage and the level from which the release ramps down. -/
structure UnrealWaveVoice where
  Waveform : WaveType := 0
  AttackRateSeconds : Rat := 0
  DecayRateSeconds : Rat := 0
  ReleaseRateSeconds : Rat := 0
  SustainLevel : Rat := 0
  Stage : AdsrStage := AdsrStage.Idle
  EnvelopeLevel : Rat := 0
  Phase : Rat := 0
  Note : Option Int := none
  Channel : Int := 0
  StageSeconds : Rat := 0
  ReleaseFrom : Rat := 0
  deriving DecidableEq, Repr

namespace UnrealWaveVoice

/-- Modelled from the spec: `UnrealWaveVoice::SetWaveformType`, declared outside the
source file; the setter stores the parameter. -/
def SetWaveformType (v : UnrealWaveVoice) (w : WaveType) : UnrealWaveVoice :=
  { v with Waveform := w }

/-- Modelled from the spec: `UnrealWaveVoice::SetAttackRateSeconds`, declared outside the
source file; the setter stores the parameter. -/
def SetAttackRateSeconds (v : UnrealWaveVoice) (rate : Rat) : UnrealWaveVoice :=
  { v with AttackRateSeconds := rate }

/-- Modelled from the spec: `UnrealWaveVoice::SetDecayRateSeconds`, declared outside the
source file; the setter stores the parameter. -/
def SetDecayRateSeconds (v : UnrealWaveVoice) (rate : Rat) : UnrealWaveVoice :=
  { v with DecayRateSeconds := rate }

/-- Modelled from the spec: `UnrealWaveVoice::SetReleaseRateSeconds`, declared outside the
source file; the setter stores the parameter. -/
def SetReleaseRateSeconds (v : UnrealWaveVoice) (rate : Rat) : UnrealWaveVoice :=
  { v with ReleaseRateSeconds := rate }

/-- Modelled from the spec: `UnrealWaveVoice::SetSustainLevel`, declared outside the
source file; the setter stores the parameter. -/
def SetSustainLevel (v : UnrealWaveVoice) (level : Rat) : UnrealWaveVoice :=
  { v with SustainLevel := level }

end UnrealWaveVoice

/-- The `juce::Synthesiser` of the component as far as the control calls reach it: its
voices, all of them `UnrealWaveVoice` objects, and the playback sample rate. -/
structure Synthesiser where
  voices : List UnrealWaveVoice := []
  sampleRate : Rat := 0
  deriving DecidableEq, Repr

namespace Synthesiser

/-- Modelled from the spec: `setCurrentPlaybackSampleRate (rate)` of the synthesiser, which
is not part of the source file; the rate is recorded for all voices. -/
def setCurrentPlaybackSampleRate (y : Synthesiser) (rate : Rat) : Synthesiser :=
  { y with sampleRate := rate }

end Synthesiser

/-- The component `UUnrealSynthesiserComponent`: the `Initialised` flag, the collector,
the note player and the synthesiser. -/
structure UUnrealSynthesiserComponent where
  Initialised : Bool := false
  MidiCollector : MidiMessageCollector
  NotePlayer : UNoteEventPlayer
  Synth : Synthesiser
  deriving DecidableEq, Repr

namespace UUnrealSynthesiserComponent

/-- The method `UUnrealSynthesiserComponent::InitializeComponent`. -/
def InitializeComponent (u : UUnrealSynthesiserComponent) : UUnrealSynthesiserComponent :=
  { u with NotePlayer := u.NotePlayer.SetNumberOfNoteSlots 20 }

/-- The method `UUnrealSynthesiserComponent::TickComponent` at clock reading `now`; the world's timer
manager, taken by address, is never null. -/
def TickComponent (u : UUnrealSynthesiserComponent) (now : Rat) : UUnrealSynthesiserComponent :=
  if u.Initialised then
    { u with NotePlayer := u.NotePlayer.ScheduleNoteEndsForActiveNotes true now }
  else u

/-- The method `UUnrealSynthesiserComponent::SetWaveformType`. -/
def SetWaveformType (u : UUnrealSynthesiserComponent) (w : WaveType) :
    UUnrealSynthesiserComponent :=
  if u.Initialised then
    { u with Synth := { u.Synth with voices := u.Synth.voices.map fun v => v.SetWaveformType w } }
  else u

/-- The method `UUnrealSynthesiserComponent::SetAttackRateSeconds`. -/
def SetAttackRateSeconds (u : UUnrealSynthesiserComponent) (rate : Rat) :
    UUnrealSynthesiserComponent :=
  if u.Initialised then
    { u with
      Synth := { u.Synth with voices := u.Synth.voices.map fun v => v.SetAttackRateSeconds rate } }
  else u

/-- The method `UUnrealSynthesiserComponent::SetDecayRateSeconds`. -/
def SetDecayRateSeconds (u : UUnrealSynthesiserComponent) (rate : Rat) :
    UUnrealSynthesiserComponent :=
  if u.Initialised then
    { u with
      Synth := { u.Synth with voices := u.Synth.voices.map fun v => v.SetDecayRateSeconds rate } }
  else u

/-- The method `UUnrealSynthesiserComponent::SetReleaseRateSeconds`. -/
def SetReleaseRateSeconds (u : UUnrealSynthesiserComponent) (rate : Rat) :
    UUnrealSynthesiserComponent :=
  if u.Initialised then
    { u with
      Synth := { u.Synth with voices := u.Synth.voices.map fun v => v.SetReleaseRateSeconds rate } }
  else u

/-- The method `UUnrealSynthesiserComponent::SetSustainLevel`. -/
def SetSustainLevel (u : UUnrealSynthesiserComponent) (level : Rat) :
    UUnrealSynthesiserComponent :=
  if u.Initialised then
    { u with
      Synth := { u.Synth with voices := u.Synth.voices.map fun v => v.SetSustainLevel level } }
  else u

/-- The method `UUnrealSynthesiserComponent::PlayNoteEvent` at clock reading `now`. -/
def PlayNoteEvent (u : UUnrealSynthesiserComponent) (midiChannel midiNoteNumber : Int)
    (onVelocity offVelocity timeMs now : Rat) : UUnrealSynthesiserComponent :=
  if u.Initialised then
    let r := u.NotePlayer.StartNoteEvent u.MidiCollector midiChannel midiNoteNumber onVelocity
      offVelocity timeMs now
    { u with NotePlayer := r.1, MidiCollector := r.2 }
  else u

/-- The method `UUnrealSynthesiserComponent::TriggerNoteOn` at clock reading `now`. -/
def TriggerNoteOn (u : UUnrealSynthesiserComponent) (midiChannel midiNoteNumber : Int)
    (velocity now : Rat) : UUnrealSynthesiserComponent :=
  if u.Initialised then
    let m := (MidiMessage.noteOn midiChannel midiNoteNumber velocity).setTimeStamp (now * (1 / 1000))
    { u with MidiCollector := u.MidiCollector.addMessageToQueue m }
  else u

/-- The method `UUnrealSynthesiserComponent::TriggerNoteOff` at clock reading `now`. -/
def TriggerNoteOff (u : UUnrealSynthesiserComponent) (midiChannel midiNoteNumber : Int)
    (velocity now : Rat) : UUnrealSynthesiserComponent :=
  if u.Initialised then
    let m := (MidiMessage.noteOff midiChannel midiNoteNumber velocity).setTimeStamp (now * (1 / 1000))
    { u with MidiCollector := u.MidiCollector.addMessageToQueue m }
  else u

/-- The method `UUnrealSynthesiserComponent::PrepareToPlay`. -/
def PrepareToPlay (u : UUnrealSynthesiserComponent) (sampleRate : Rat) :
    UUnrealSynthesiserComponent :=
  let u1 := { u with MidiCollector := u.MidiCollector.reset sampleRate }
  let u2 := { u1 with Synth := u1.Synth.setCurrentPlaybackSampleRate sampleRate }
  { u2 with Initialised := true }

end UUnrealSynthesiserComponent

/-- The MIDI buffer handed to the synthesiser for one block: sample offsets with their
messages. -/
abbrev MidiBuffer := List (Int × MidiMessage)

/-- The `juce::AudioSourceChannelInfo` of one render call: the channels of the buffer and
the active region `[startSample, startSample + numSamples)`. -/
structure AudioSourceChannelInfo where
  buffer : List (List Rat)
  startSample : Nat
  numSamples : Nat
  deriving DecidableEq, Repr

namespace AudioSourceChannelInfo

/-- The call `clearActiveBufferRegion`: the samples of the active region become zero in every
channel. -/
def clearActiveBufferRegion (b : AudioSourceChannelInfo) : AudioSourceChannelInfo :=
  { b with
    buffer := b.buffer.map fun channel =>
      channel.take b.startSample ++
        List.replicate (min b.numSamples (channel.length - b.startSample)) 0 ++
        channel.drop (b.startSample + b.numSamples) }

end AudioSourceChannelInfo

namespace UUnrealSynthesiserComponent

/-- The method `UUnrealSynthesiserComponent::GetNextAudioBlock`. The two library calls it makes,
`MidiCollector.removeNextBlockOfMessages` and `Synth.renderNextBlock`, are not part of the
source file and are taken as parameters. -/
def GetNextAudioBlock
    (removeNextBlockOfMessages : MidiMessageCollector → Nat → MidiBuffer × MidiMessageCollector)
    (renderNextBlock : Synthesiser → List (List Rat) → MidiBuffer → Nat → Nat →
      Synthesiser × List (List Rat))
    (u : UUnrealSynthesiserComponent) (bufferToFill : AudioSourceChannelInfo) :
    UUnrealSynthesiserComponent × AudioSourceChannelInfo :=
  let b1 := bufferToFill.clearActiveBufferRegion
  let r := removeNextBlockOfMessages u.MidiCollector b1.numSamples
  let incomingMidi := r.1
  let u1 := { u with MidiCollector := r.2 }
  let y := renderNextBlock u1.Synth b1.buffer incomingMidi 0 b1.numSamples
  ({ u1 with Synth := y.1 }, { b1 with buffer := y.2 })

end UUnrealSynthesiserComponent

/-- One step of the life of the pool, with the clock reading at which it happens: a
`StartNoteEvent` call, a tick (`ScheduleNoteEndsForActiveNotes` with the world's timer
manager), or the host timer facility serving the timer of slot `i`. -/
inductive PoolEvent where
  | startNote (k : NoteCall)
  | tick (now : Rat)
  | timerFired (i : Nat) (now : Rat)
  deriving DecidableEq, Repr

namespace PoolEvent

/-- The effect of one event on the pool and the collector. -/
def apply (e : PoolEvent) (w : UNoteEventPlayer × MidiMessageCollector) :
    UNoteEventPlayer × MidiMessageCollector :=
  match e with
  | startNote k =>
    w.1.StartNoteEvent w.2 k.midiChannel k.midiNoteNumber k.onVelocity k.offVelocity
      k.noteTimeMs k.now
  | tick now => (w.1.ScheduleNoteEndsForActiveNotes true now, w.2)
  | timerFired i now => w.1.TimerFired w.2 i now

end PoolEvent

/-- A sequence of events applied in order. -/
def runEvents : List PoolEvent → UNoteEventPlayer × MidiMessageCollector →
    UNoteEventPlayer × MidiMessageCollector
  | [], w => w
  | e :: es, w => runEvents es (e.apply w)

/-! ### Concrete states used by the worked examples -/

/-- An empty collector running at 44100 Hz. -/
def quietCollector : MidiMessageCollector :=
  { incomingMessages := [], sampleRate := 44100 }

/-- Note 60 on channel 1 for 500 ms, called at clock reading 1000. -/
def call60 : NoteCall :=
  { midiChannel := 1, midiNoteNumber := 60, onVelocity := 1, offVelocity := 4 / 5,
    noteTimeMs := 500, now := 1000 }

/-- Note 64 on channel 1 for 500 ms, called at clock reading 1001. -/
def call64 : NoteCall :=
  { midiChannel := 1, midiNoteNumber := 64, onVelocity := 1, offVelocity := 4 / 5,
    noteTimeMs := 500, now := 1001 }

/-- Note 67 on channel 1 for 250 ms, called at clock reading 1002. -/
def call67 : NoteCall :=
  { midiChannel := 1, midiNoteNumber := 67, onVelocity := 1 / 2, offVelocity := 1 / 2,
    noteTimeMs := 250, now := 1002 }

/-- A slot sounding note 60 whose note-off timer is pending, due at 1516. -/
def soundingSlot : UNoteEventInfo :=
  { TimerManager := true, MidiCollector := true, NoteOffHandle := some 1516,
    NoteLengthMs := 500, NoteOnVelocity := 1, NoteOffVelocity := 4 / 5, MidiChannel := 1,
    MidiNote := 60, IsActive := true, HasNoteOffScheduled := true }

/-- A slot sounding note 60 that no tick has scheduled yet. -/
def unscheduledSlot : UNoteEventInfo :=
  { MidiCollector := true, NoteLengthMs := 500, NoteOnVelocity := 1, NoteOffVelocity := 4 / 5,
    MidiChannel := 1, MidiNote := 60, IsActive := true }

/-- A free slot that still has a timer pending, due at 1516. -/
def staleTimerSlot : UNoteEventInfo :=
  { TimerManager := true, MidiCollector := true, NoteOffHandle := some 1516 }

/-- A component that has not been prepared to play: four default voices, twenty free
slots. -/
def unpreparedComponent : UUnrealSynthesiserComponent :=
  { Initialised := false
    MidiCollector := quietCollector
    NotePlayer := UNoteEventPlayer.SetNumberOfNoteSlots {} 20
    Synth := { voices := List.replicate 4 {} } }

/-- A pool of two slots: the first sounding and scheduled, the second free. -/
def busyThenFreePool : UNoteEventPlayer :=
  { NoteEvents := [soundingSlot, {}] }

/-- A pool of one slot, which is sounding. -/
def saturatedPool : UNoteEventPlayer :=
  { NoteEvents := [soundingSlot] }

namespace UNoteEventPlayer

/-- The slot objects `SetNumberOfNoteSlots` drops from the array with `NoteEvents.Empty ()`,
in the state `ClearNoteOffTimers` has just left them in. -/
def discardedSlots (p : UNoteEventPlayer) : List UNoteEventInfo :=
  p.ClearNoteOffTimers.NoteEvents

end UNoteEventPlayer

/-- A pool of two slots with notes sounding: one scheduled, one not yet. -/
def playingPool : UNoteEventPlayer :=
  { NoteEvents := [soundingSlot, unscheduledSlot] }

/-- A message a slot has handed to the collector: the index of the slot, the message, and,
for a NoteOn, the `StartNoteEvent` call that started the note. -/
structure Emission where
  slot : Nat
  message : MidiMessage
  call : Option NoteCall
  deriving DecidableEq, Repr

namespace PoolEvent

/-- The messages an event adds to the collector: what the queue holds after the event
beyond what it held before. -/
def emitted (e : PoolEvent) (w : UNoteEventPlayer × MidiMessageCollector) : List MidiMessage :=
  (e.apply w).2.incomingMessages.drop w.2.incomingMessages.length

/-- The slot that acts in an event: the slot `StartNoteEvent` picks, or the slot whose
timer is served (a tick hands nothing to the collector). -/
def actingSlot (e : PoolEvent) (w : UNoteEventPlayer × MidiMessageCollector) : Nat :=
  match e with
  | startNote _ => w.1.FindAvailableNoteIndex.toNat
  | tick _ => 0
  | timerFired i _ => i

/-- The call behind a `StartNoteEvent` event. -/
def startedBy : PoolEvent → Option NoteCall
  | startNote k => some k
  | _ => none

/-- The messages of an event, each with the slot that hands it over. -/
def emissions (e : PoolEvent) (w : UNoteEventPlayer × MidiMessageCollector) : List Emission :=
  (e.emitted w).map fun m => { slot := e.actingSlot w, message := m, call := e.startedBy }

end PoolEvent

/-- Everything the slots hand to the collector during a run, oldest first. -/
def emissionLog : List PoolEvent → UNoteEventPlayer × MidiMessageCollector → List Emission
  | [], _ => []
  | e :: es, w => e.emissions w ++ emissionLog es (e.apply w)

/-- The number of NoteOn messages slot `i` has emitted. -/
def noteOnCount (i : Nat) (log : List Emission) : Nat :=
  log.countP fun x => decide (x.slot = i ∧ x.message.kind = MidiKind.noteOn)

/-- The number of NoteOff messages slot `i` has emitted. -/
def noteOffCount (i : Nat) (log : List Emission) : Nat :=
  log.countP fun x => decide (x.slot = i ∧ x.message.kind = MidiKind.noteOff)

/-- The number of NoteOn messages the pool has emitted. -/
def poolNoteOns (log : List Emission) : Nat :=
  log.countP fun x => decide (x.message.kind = MidiKind.noteOn)

/-- The number of NoteOff messages the pool has emitted. -/
def poolNoteOffs (log : List Emission) : Nat :=
  log.countP fun x => decide (x.message.kind = MidiKind.noteOff)

/-- The number of active slots of a pool. -/
def activeCount (p : UNoteEventPlayer) : Nat :=
  p.NoteEvents.countP fun s => s.IsActive

/-- The most recent NoteOn slot `i` has emitted, if any. -/
def lastNoteOn (i : Nat) (log : List Emission) : Option Emission :=
  (log.filter fun x => decide (x.slot = i ∧ x.message.kind = MidiKind.noteOn)).getLast?

/-- The NoteOff of note 60 on channel 1 with off-velocity 0.8, stamped 1516 ms. -/
def noteOff60 : MidiMessage :=
  { kind := MidiKind.noteOff, channel := 1, noteNumber := 60, velocity := 4 / 5,
    timeStamp := 1516 / 1000 }

namespace UnrealWaveVoice

/-- Modelled from the spec: a voice is free exactly when its envelope is idle. -/
def isFree (v : UnrealWaveVoice) : Bool :=
  decide (v.Stage = AdsrStage.Idle)

/-- Modelled from the spec: a NoteOn reaches the voice, which is declared outside the
source file. The voice records the note and enters Attack with the envelope at 0; a
voice that is already sounding restarts its envelope from Attack. -/
def startNote (v : UnrealWaveVoice) (channel note : Int) : UnrealWaveVoice :=
  { v with
    Stage := AdsrStage.Attack, EnvelopeLevel := 0, Note := some note, Channel := channel,
    StageSeconds := 0 }

/-- Modelled from the spec: the NoteOff of the voice's note reaches the voice, which is
declared outside the source file. A sounding voice moves to Release, which ramps down
from the level reached so far; an idle or releasing voice stays as it is. -/
def stopNote (v : UnrealWaveVoice) : UnrealWaveVoice :=
  match v.Stage with
  | AdsrStage.Idle => v
  | AdsrStage.Release => v
  | _ => { v with Stage := AdsrStage.Release, ReleaseFrom := v.EnvelopeLevel, StageSeconds := 0 }

/-- Modelled from the spec: the envelope of a voice, which is declared outside the source
file, moves on by one sample. Each ramp measures the time spent in its stage against the
current rate: Attack ramps 0 to 1 over the attack rate and goes on to Decay, Decay ramps
1 to the sustain level over the decay rate and goes on to Sustain, Sustain holds, Release
ramps to 0 over the release rate and then frees the voice (stage Idle, level 0, no
note). -/
def advanceEnvelope (v : UnrealWaveVoice) (sampleRate : Rat) : UnrealWaveVoice :=
  match v.Stage with
  | AdsrStage.Idle => v
  | AdsrStage.Attack =>
    if v.AttackRateSeconds ≤ v.StageSeconds + 1 / sampleRate then
      { v with Stage := AdsrStage.Decay, EnvelopeLevel := 1, StageSeconds := 0 }
    else
      { v with
        EnvelopeLevel := (v.StageSeconds + 1 / sampleRate) / v.AttackRateSeconds,
        StageSeconds := v.StageSeconds + 1 / sampleRate }
  | AdsrStage.Decay =>
    if v.DecayRateSeconds ≤ v.StageSeconds + 1 / sampleRate then
      { v with Stage := AdsrStage.Sustain, EnvelopeLevel := v.SustainLevel, StageSeconds := 0 }
    else
      { v with
        EnvelopeLevel :=
          1 + (v.SustainLevel - 1) * ((v.StageSeconds + 1 / sampleRate) / v.DecayRateSeconds),
        StageSeconds := v.StageSeconds + 1 / sampleRate }
  | AdsrStage.Sustain => v
  | AdsrStage.Release =>
    if v.ReleaseRateSeconds ≤ v.StageSeconds + 1 / sampleRate then
      { v with Stage := AdsrStage.Idle, EnvelopeLevel := 0, Note := none, StageSeconds := 0 }
    else
      { v with
        EnvelopeLevel :=
          v.ReleaseFrom * (1 - (v.StageSeconds + 1 / sampleRate) / v.ReleaseRateSeconds),
        StageSeconds := v.StageSeconds + 1 / sampleRate }

/-- Modelled from the spec: the oscillator phase of a voice, which is declared outside the
source file, moves on by `frequency (note) / sampleRate` and wraps at 1. The note
frequency is a parameter. -/
def advancePhase (v : UnrealWaveVoice) (frequency : Int → Rat) (sampleRate : Rat) :
    UnrealWaveVoice :=
  match v.Note with
  | some note => { v with Phase := Int.fract (v.Phase + frequency note / sampleRate) }
  | none => v

/-- Modelled from the spec: the sample a voice, declared outside the source file, adds to
the output: the oscillator at the current phase times the envelope level, and nothing
when the voice is idle. The waveform shape is a parameter. -/
def currentSample (v : UnrealWaveVoice) (oscillator : WaveType → Rat → Rat) : Rat :=
  if v.Stage = AdsrStage.Idle then 0 else oscillator v.Waveform v.Phase * v.EnvelopeLevel

/-- Modelled from the spec: a voice that is not idle moves on by one sample, phase and
envelope; the voice class is declared outside the source file. -/
def advanceSample (v : UnrealWaveVoice) (frequency : Int → Rat) (sampleRate : Rat) :
    UnrealWaveVoice :=
  if v.Stage = AdsrStage.Idle then v
  else (v.advancePhase frequency sampleRate).advanceEnvelope sampleRate

/-- Modelled from the spec: the voice rendered for `n` samples in a row. -/
def advanceSamples (frequency : Int → Rat) (sampleRate : Rat) : Nat → UnrealWaveVoice →
    UnrealWaveVoice
  | 0, v => v
  | n + 1, v => advanceSamples frequency sampleRate n (v.advanceSample frequency sampleRate)

/-- Modelled from the spec: a NoteOff for `(channel, note)` reaches the voice if that is
the note assigned to it. -/
def noteOff (v : UnrealWaveVoice) (channel note : Int) : UnrealWaveVoice :=
  if v.Note = some note ∧ v.Channel = channel then v.stopNote else v

end UnrealWaveVoice

namespace Synthesiser

/-- Modelled from the spec: the first free voice, by index, takes the note; with no free
voice the list is unchanged. -/
def startFirstFree : List UnrealWaveVoice → Int → Int → List UnrealWaveVoice
  | [], _, _ => []
  | v :: vs, channel, note =>
    if v.isFree then v.startNote channel note :: vs else v :: startFirstFree vs channel note

/-- Modelled from the spec: a NoteOn reaches the synthesiser, which is not part of the
source file: the first free voice is started, and the event is dropped when none is
free. -/
def noteOn (y : Synthesiser) (channel note : Int) : Synthesiser :=
  { y with voices := startFirstFree y.voices channel note }

/-- Modelled from the spec: a NoteOff reaches the synthesiser, which is not part of the
source file: the voice assigned to `(channel, note)` moves to Release. -/
def noteOff (y : Synthesiser) (channel note : Int) : Synthesiser :=
  { y with voices := y.voices.map fun v => v.noteOff channel note }

/-- Modelled from the spec: one MIDI event handled by the synthesiser. -/
def handleMidiEvent (y : Synthesiser) (m : MidiMessage) : Synthesiser :=
  match m.kind with
  | MidiKind.noteOn => y.noteOn m.channel m.noteNumber
  | MidiKind.noteOff => y.noteOff m.channel m.noteNumber

/-- Modelled from the spec: the sample loop of `renderNextBlock`, with `k` samples to go
from sample `j` of the block. The events placed at sample `j` are handled in their
order, the samples of all voices are summed and added to every channel at
`startSample + j`, and the voices that are not idle move on by one sample. -/
def renderSamples (oscillator : WaveType → Rat → Rat) (frequency : Int → Rat) :
    Nat → Nat → Synthesiser → List (List Rat) → MidiBuffer → Nat →
    Synthesiser × List (List Rat)
  | 0, _, y, buffer, _, _ => (y, buffer)
  | k + 1, j, y, buffer, midi, startSample =>
    let y1 := (midi.filter fun e => decide (e.1 = (j : Int))).foldl
      (fun acc e => acc.handleMidiEvent e.2) y
    let out := (y1.voices.map fun v => v.currentSample oscillator).sum
    let buffer1 := buffer.map fun channel =>
      channel.set (startSample + j) (channel.getD (startSample + j) 0 + out)
    let y2 := { y1 with voices := y1.voices.map fun v => v.advanceSample frequency y1.sampleRate }
    renderSamples oscillator frequency k (j + 1) y2 buffer1 midi startSample

/-- Modelled from the spec: `renderNextBlock (buffer, midi, startSample, numSamples)` of
the synthesiser, which is not part of the source file. It handles the events in order,
renders the full range of samples also when there is no event, and adds its output to
the buffer without overwriting it. -/
def renderNextBlock (oscillator : WaveType → Rat → Rat) (frequency : Int → Rat)
    (y : Synthesiser) (buffer : List (List Rat)) (midi : MidiBuffer)
    (startSample numSamples : Nat) : Synthesiser × List (List Rat) :=
  renderSamples oscillator frequency numSamples 0 y buffer midi startSample

end Synthesiser

namespace MidiMessageCollector

/-- Modelled from the spec: the sample offset of an event in its block,
`(eventTime - blockStartTime) * sampleRate` as an integer, clamped into
`[0, numSamples)`. -/
def sampleOffset (blockStartTime sampleRate : Rat) (numSamples : Nat) (eventTime : Rat) : Int :=
  max 0 (min ((numSamples : Int) - 1) ⌊(eventTime - blockStartTime) * sampleRate⌋)

/-- Modelled from the spec: `removeNextBlockOfMessages (numSamples)` of the collector, which
is not part of the source file. The block's window runs from the last-consumed position
`blockStartTime` (seconds, given here as an argument) to
`blockStartTime + numSamples / sampleRate`. The events with a time stamp up to the end of
the window leave the queue; of these, the ones older than the window are dropped and the
others are returned in time-stamp order, each with its sample offset. Later events stay
queued. -/
def removeNextBlockOfMessages (blockStartTime : Rat) (c : MidiMessageCollector)
    (numSamples : Nat) : MidiBuffer × MidiMessageCollector :=
  let blockEndTime := blockStartTime + numSamples / c.sampleRate
  let removed := c.incomingMessages.filter fun m => decide (m.timeStamp ≤ blockEndTime)
  let inWindow := removed.filter fun m => decide (blockStartTime ≤ m.timeStamp)
  let ordered := inWindow.insertionSort fun a b => a.timeStamp ≤ b.timeStamp
  (ordered.map fun m => (sampleOffset blockStartTime c.sampleRate numSamples m.timeStamp, m),
   { c with
     incomingMessages := c.incomingMessages.filter fun m => decide (blockEndTime < m.timeStamp) })

end MidiMessageCollector

namespace UnrealWaveVoice

/-- The voice `w` has the parameters, the note and the channel of the voice `v`. -/
def sameNoteAndSettings (v w : UnrealWaveVoice) : Prop :=
  w.Waveform = v.Waveform ∧ w.AttackRateSeconds = v.AttackRateSeconds ∧
  w.DecayRateSeconds = v.DecayRateSeconds ∧ w.ReleaseRateSeconds = v.ReleaseRateSeconds ∧
  w.SustainLevel = v.SustainLevel ∧ w.Note = v.Note ∧ w.Channel = v.Channel

end UnrealWaveVoice

/-- An idle voice with a 10 ms attack, a 20 ms decay, a 100 ms release and sustain level
one half. -/
def softVoice : UnrealWaveVoice :=
  { AttackRateSeconds := 1 / 100, DecayRateSeconds := 1 / 50, ReleaseRateSeconds := 1 / 10,
    SustainLevel := 1 / 2 }

/-- A collector at 1000 Hz with four queued events, stamped 1.05 s, 0.5 s, 2 s and
1.02 s. -/
def busyCollector : MidiMessageCollector :=
  { incomingMessages :=
      [{ kind := MidiKind.noteOn, channel := 1, noteNumber := 60, velocity := 1,
         timeStamp := 105 / 100 },
       { kind := MidiKind.noteOn, channel := 1, noteNumber := 55, velocity := 1,
         timeStamp := 1 / 2 },
       { kind := MidiKind.noteOff, channel := 1, noteNumber := 60, velocity := 1,
         timeStamp := 2 },
       { kind := MidiKind.noteOn, channel := 1, noteNumber := 64, velocity := 1,
         timeStamp := 102 / 100 }],
    sampleRate := 1000 }

/-! ## Theorems -/

open UNoteEventPlayer UNoteEventInfo

/-! ### The free-slot scan -/

/-- The scan returns -1 when every slot it visits is active. -/
theorem findAvailableFrom_all_active (l : List UNoteEventInfo) (k : Nat)
    (h : ∀ s ∈ l, s.IsActive = true) : findAvailableFrom l k = -1 := by
  induction l generalizing k with
  | nil => rfl
  | cons s rest ih =>
    have hs : s.IsActive = true := h s (List.mem_cons_self _ _)
    have hr : ∀ t ∈ rest, t.IsActive = true := fun t ht => h t (List.mem_cons_of_mem _ ht)
    simp [findAvailableFrom, hs, ih (k + 1) hr]

/-- The scan returns the position of the first inactive slot when there is one. -/
theorem findAvailableFrom_found (l : List UNoteEventInfo) (k : Nat)
    (h : ∃ s ∈ l, s.IsActive = false) :
    ∃ (i : Nat) (s : UNoteEventInfo), findAvailableFrom l k = ((k + i : Nat) : Int) ∧
      l[i]? = some s ∧ s.IsActive = false ∧
      ∀ (j : Nat) (t : UNoteEventInfo), j < i → l[j]? = some t → t.IsActive = true := by
  induction l generalizing k with
  | nil => simp at h
  | cons s rest ih =>
    by_cases hs : s.IsActive = true
    · have hr : ∃ t ∈ rest, t.IsActive = false := by
        obtain ⟨t, ht, hta⟩ := h
        rcases List.mem_cons.mp ht with rfl | ht
        · rw [hs] at hta; cases hta
        · exact ⟨t, ht, hta⟩
      obtain ⟨i, t, hfind, hget, hinact, hlow⟩ := ih (k + 1) hr
      refine ⟨i + 1, t, ?_, ?_, hinact, ?_⟩
      · simp only [findAvailableFrom, hs]
        simp [hfind]; omega
      · simpa using hget
      · intro j u hj hu
        cases j with
        | zero => simp at hu; rw [← hu]; exact hs
        | succ j => exact hlow j u (by omega) (by simpa using hu)
    · have hs' : s.IsActive = false := by simpa using hs
      refine ⟨0, s, ?_, ?_, hs', ?_⟩
      · simp [findAvailableFrom, hs']
      · simp
      · intro j u hj; omega

/-- Active slots in front of the scan are skipped. -/
theorem findAvailableFrom_append_active (act rest : List UNoteEventInfo) (k : Nat)
    (h : ∀ s ∈ act, s.IsActive = true) :
    findAvailableFrom (act ++ rest) k = findAvailableFrom rest (k + act.length) := by
  induction act generalizing k with
  | nil => simp
  | cons s act ih =>
    have hs : s.IsActive = true := h s (List.mem_cons_self _ _)
    have hr : ∀ t ∈ act, t.IsActive = true := fun t ht => h t (List.mem_cons_of_mem _ ht)
    have e : k + 1 + act.length = k + (act.length + 1) := by omega
    simp [findAvailableFrom, hs, ih (k + 1) hr, e]

/-! ### `StartNoteEvent` -/

/-- With every slot active the call returns the pool and the collector as they were. -/
theorem StartNoteEvent_of_all_active (p : UNoteEventPlayer) (c : MidiMessageCollector)
    (ch note : Int) (onV offV dur now : Rat)
    (h : ∀ s ∈ p.NoteEvents, s.IsActive = true) :
    p.StartNoteEvent c ch note onV offV dur now = (p, c) := by
  simp [StartNoteEvent, FindAvailableNoteIndex, findAvailableFrom_all_active _ _ h]

/-- When the scan returns index `i`, the call is `StartNote` on slot `i`. -/
theorem StartNoteEvent_of_found (p : UNoteEventPlayer) (c : MidiMessageCollector)
    (ch note : Int) (onV offV dur now : Rat) (i : Nat) (s : UNoteEventInfo)
    (hfind : p.FindAvailableNoteIndex = (i : Int)) (hget : p.NoteEvents[i]? = some s) :
    p.StartNoteEvent c ch note onV offV dur now =
      ({ p with NoteEvents := p.NoteEvents.set i (s.StartNote c ch note onV offV dur now).1 },
       (s.StartNote c ch note onV offV dur now).2) := by
  have hne : ((i : Int) != -1) = true := by
    simp
  simp [StartNoteEvent, hfind, hget, hne]

/-- C1. When the pool has an inactive slot, `StartNoteEvent` starts the note in the
inactive slot of lowest index `i`, the index `FindAvailableNoteIndex` returns: slot `i`
takes the given channel, note, velocities and duration with `IsActive = true` and
`HasNoteOffScheduled = false` (its timer fields stay as they were), every other slot is
unchanged, the pool keeps its size, and exactly one NoteOn message with the given
channel, note and on-velocity joins the collector. -/
theorem StartNoteEvent_starts_lowest_free_slot (p : UNoteEventPlayer)
    (c : MidiMessageCollector) (ch note : Int) (onV offV dur now : Rat)
    (hfree : ∃ s ∈ p.NoteEvents, s.IsActive = false) :
    ∃ (i : Nat) (s : UNoteEventInfo),
      p.FindAvailableNoteIndex = (i : Int) ∧
      p.NoteEvents[i]? = some s ∧ s.IsActive = false ∧
      (∀ (j : Nat) (t : UNoteEventInfo), j < i → p.NoteEvents[j]? = some t → t.IsActive = true) ∧
      (p.StartNoteEvent c ch note onV offV dur now).1.NoteEvents.length = p.NoteEvents.length ∧
      (p.StartNoteEvent c ch note onV offV dur now).1.NoteEvents[i]? =
        some { s with
               MidiCollector := true, MidiChannel := ch, MidiNote := note,
               NoteOnVelocity := onV, NoteOffVelocity := offV, NoteLengthMs := dur,
               IsActive := true, HasNoteOffScheduled := false } ∧
      (∀ j : Nat, j ≠ i →
        (p.StartNoteEvent c ch note onV offV dur now).1.NoteEvents[j]? = p.NoteEvents[j]?) ∧
      (p.StartNoteEvent c ch note onV offV dur now).2 =
        { c with
          incomingMessages := c.incomingMessages ++
            [{ kind := MidiKind.noteOn, channel := ch, noteNumber := note, velocity := onV,
               timeStamp := now / 1000 }] } := by
  obtain ⟨i, s, hfind, hget, hinact, hlow⟩ := findAvailableFrom_found p.NoteEvents 0 hfree
  have hfind' : p.FindAvailableNoteIndex = (i : Int) := by
    simpa [FindAvailableNoteIndex] using hfind
  have hi : i < p.NoteEvents.length := by
    by_contra hcon
    rw [List.getElem?_eq_none (by omega)] at hget
    cases hget
  refine ⟨i, s, hfind', hget, hinact, hlow, ?_, ?_, ?_, ?_⟩
  · rw [StartNoteEvent_of_found p c ch note onV offV dur now i s hfind' hget]
    simp
  · rw [StartNoteEvent_of_found p c ch note onV offV dur now i s hfind' hget]
    simp [hi, StartNote]
  · intro j hj
    rw [StartNoteEvent_of_found p c ch note onV offV dur now i s hfind' hget]
    simp [List.getElem?_set, Ne.symm hj]
  · rw [StartNoteEvent_of_found p c ch note onV offV dur now i s hfind' hget]
    simp [StartNote, MidiMessageCollector.addMessageToQueue, MidiMessage.noteOn,
      MidiMessage.setTimeStamp, div_eq_mul_inv]

/-- C1 at a concrete pool: the first slot is sounding, the second is free and takes
note 64. -/
theorem StartNoteEvent_starts_lowest_free_slot_witness :
    (∃ s ∈ busyThenFreePool.NoteEvents, s.IsActive = false) ∧
    ∃ (i : Nat) (s : UNoteEventInfo),
      busyThenFreePool.FindAvailableNoteIndex = (i : Int) ∧
      busyThenFreePool.NoteEvents[i]? = some s ∧
      (busyThenFreePool.StartNoteEvent quietCollector 1 64 1 (4 / 5) 500 1001).1.NoteEvents[i]? =
        some { s with
               MidiCollector := true, MidiChannel := 1, MidiNote := 64,
               NoteOnVelocity := 1, NoteOffVelocity := 4 / 5, NoteLengthMs := 500,
               IsActive := true, HasNoteOffScheduled := false } := by
  have hfree : ∃ s ∈ busyThenFreePool.NoteEvents, s.IsActive = false :=
    ⟨{}, by simp [busyThenFreePool], rfl⟩
  obtain ⟨i, s, h1, h2, _, _, _, h6, _, _⟩ :=
    StartNoteEvent_starts_lowest_free_slot busyThenFreePool quietCollector 1 64 1 (4 / 5) 500
      1001 hfree
  exact ⟨hfree, i, s, h1, h2, h6⟩

/-- C2. When every slot is active (the empty pool included) `StartNoteEvent` is a silent
drop: `FindAvailableNoteIndex` returns -1 and the call returns the pool, with every slot
field and timer, and the collector exactly as they were. -/
theorem StartNoteEvent_saturated_is_silent_drop (p : UNoteEventPlayer)
    (c : MidiMessageCollector) (ch note : Int) (onV offV dur now : Rat)
    (hfull : ∀ s ∈ p.NoteEvents, s.IsActive = true) :
    p.FindAvailableNoteIndex = -1 ∧ p.StartNoteEvent c ch note onV offV dur now = (p, c) :=
  ⟨findAvailableFrom_all_active _ _ hfull,
   StartNoteEvent_of_all_active p c ch note onV offV dur now hfull⟩

/-- C2 at a concrete pool whose only slot is sounding, and at the empty pool. -/
theorem StartNoteEvent_saturated_is_silent_drop_witness :
    (∀ s ∈ saturatedPool.NoteEvents, s.IsActive = true) ∧
    (saturatedPool.FindAvailableNoteIndex = -1 ∧
      saturatedPool.StartNoteEvent quietCollector 1 64 1 (4 / 5) 500 1001 =
        (saturatedPool, quietCollector)) ∧
    (({} : UNoteEventPlayer).FindAvailableNoteIndex = -1 ∧
      ({} : UNoteEventPlayer).StartNoteEvent quietCollector 1 64 1 (4 / 5) 500 1001 =
        ({}, quietCollector)) := by
  have hfull : ∀ s ∈ saturatedPool.NoteEvents, s.IsActive = true := by
    intro s hs
    simp [saturatedPool] at hs
    rw [hs]; rfl
  exact ⟨hfull,
    StartNoteEvent_saturated_is_silent_drop saturatedPool quietCollector 1 64 1 (4 / 5) 500 1001
      hfull,
    StartNoteEvent_saturated_is_silent_drop {} quietCollector 1 64 1 (4 / 5) 500 1001
      (by intro s hs; cases hs)⟩

/-! ### A fresh pool under a burst of calls -/

/-- The allocation loop appends fresh slots. -/
theorem addNoteSlots_eq (k : Nat) (slots : List UNoteEventInfo) :
    addNoteSlots k slots = slots ++ List.replicate k ({} : UNoteEventInfo) := by
  induction k generalizing slots with
  | zero => simp [addNoteSlots]
  | succ k ih =>
    simp [addNoteSlots, ih, List.replicate_succ]

/-- The pool after `SetNumberOfNoteSlots` is made of fresh slots only. -/
theorem SetNumberOfNoteSlots_eq (p : UNoteEventPlayer) (num : Int) :
    p.SetNumberOfNoteSlots num = { NoteEvents := List.replicate num.toNat ({} : UNoteEventInfo) } := by
  simp [SetNumberOfNoteSlots, addNoteSlots_eq]

/-- A call on a pool whose first inactive slot is fresh. -/
theorem StartNoteEvent_first_fresh (act rest : List UNoteEventInfo) (c : MidiMessageCollector)
    (k : NoteCall) (h : ∀ s ∈ act, s.IsActive = true) :
    UNoteEventPlayer.StartNoteEvent { NoteEvents := act ++ ({} : UNoteEventInfo) :: rest } c
        k.midiChannel k.midiNoteNumber k.onVelocity k.offVelocity k.noteTimeMs k.now =
      ({ NoteEvents := act ++ k.startedSlot :: rest },
       { c with incomingMessages := c.incomingMessages ++ [k.noteOnMessage] }) := by
  have hfind : FindAvailableNoteIndex { NoteEvents := act ++ ({} : UNoteEventInfo) :: rest } =
      (act.length : Int) := by
    simp [FindAvailableNoteIndex, findAvailableFrom_append_active act _ 0 h, findAvailableFrom]
  have hget : (act ++ ({} : UNoteEventInfo) :: rest)[act.length]? = some ({} : UNoteEventInfo) := by
    rw [List.getElem?_append_right (Nat.le_refl _)]
    simp
  rw [StartNoteEvent_of_found _ c _ _ _ _ _ _ act.length {} hfind hget]
  simp [StartNote, NoteCall.startedSlot, NoteCall.noteOnMessage,
    MidiMessageCollector.addMessageToQueue, MidiMessage.noteOn, MidiMessage.setTimeStamp,
    div_eq_mul_inv]

/-- As long as fresh slots remain, each call of a burst takes the next one. -/
theorem StartNoteEvents_fresh (calls : List NoteCall) (act : List UNoteEventInfo) (m : Nat)
    (c : MidiMessageCollector) (h : ∀ s ∈ act, s.IsActive = true) (hlen : calls.length ≤ m) :
    StartNoteEvents calls ({ NoteEvents := act ++ List.replicate m ({} : UNoteEventInfo) }, c) =
      ({ NoteEvents := act ++ calls.map NoteCall.startedSlot ++
           List.replicate (m - calls.length) ({} : UNoteEventInfo) },
       { c with incomingMessages := c.incomingMessages ++ calls.map NoteCall.noteOnMessage }) := by
  induction calls generalizing act m c with
  | nil => simp [StartNoteEvents]
  | cons k ks ih =>
    obtain ⟨m, rfl⟩ : ∃ n, m = n + 1 := ⟨m - 1, by simp at hlen; omega⟩
    simp only [StartNoteEvents, List.replicate_succ]
    rw [StartNoteEvent_first_fresh act _ c k h]
    have hact : ∀ s ∈ act ++ [k.startedSlot], s.IsActive = true := by
      intro s hs
      rcases List.mem_append.mp hs with hs | hs
      · exact h s hs
      · simp at hs; rw [hs]; rfl
    have hl : ks.length ≤ m := by simp at hlen; omega
    have := ih (act ++ [k.startedSlot]) m
      { c with incomingMessages := c.incomingMessages ++ [k.noteOnMessage] } hact hl
    simp only [List.append_assoc, List.singleton_append] at this
    rw [this]
    simp

/-- A burst can be run in two parts. -/
theorem StartNoteEvents_append (xs ys : List NoteCall)
    (w : UNoteEventPlayer × MidiMessageCollector) :
    StartNoteEvents (xs ++ ys) w = StartNoteEvents ys (StartNoteEvents xs w) := by
  induction xs generalizing w with
  | nil => rfl
  | cons k ks ih => simp [StartNoteEvents, ih]

/-- A burst on a saturated pool changes nothing. -/
theorem StartNoteEvents_all_active (calls : List NoteCall) (p : UNoteEventPlayer)
    (c : MidiMessageCollector) (h : ∀ s ∈ p.NoteEvents, s.IsActive = true) :
    StartNoteEvents calls (p, c) = (p, c) := by
  induction calls with
  | nil => rfl
  | cons k ks ih =>
    simp only [StartNoteEvents]
    rw [StartNoteEvent_of_all_active p c _ _ _ _ _ _ h]
    exact ih

/-- C3. For every `N` and every sequence of `N + 1` `StartNoteEvent` calls issued against
the pool `SetNumberOfNoteSlots (N)` leaves, with nothing in between: the first `N` calls
emit their `N` NoteOn messages in call order and fill the slots in call order, all `N`
slots end active, and the last call changes neither the pool nor the collector. -/
theorem fresh_pool_takes_exactly_N_notes (p0 : UNoteEventPlayer) (c : MidiMessageCollector)
    (N : Nat) (calls : List NoteCall) (hlen : calls.length = N + 1) :
    StartNoteEvents (calls.take N) (p0.SetNumberOfNoteSlots N, c) =
      ({ NoteEvents := (calls.take N).map NoteCall.startedSlot },
       { c with
         incomingMessages := c.incomingMessages ++ (calls.take N).map NoteCall.noteOnMessage }) ∧
    ((calls.take N).map NoteCall.noteOnMessage).length = N ∧
    (∀ m ∈ (calls.take N).map NoteCall.noteOnMessage, m.kind = MidiKind.noteOn) ∧
    (StartNoteEvents (calls.take N) (p0.SetNumberOfNoteSlots N, c)).1.NoteEvents.length = N ∧
    (∀ s ∈ (StartNoteEvents (calls.take N) (p0.SetNumberOfNoteSlots N, c)).1.NoteEvents,
      s.IsActive = true) ∧
    StartNoteEvents calls (p0.SetNumberOfNoteSlots N, c) =
      StartNoteEvents (calls.take N) (p0.SetNumberOfNoteSlots N, c) := by
  have htake : (calls.take N).length = N := by simp [hlen]
  have hmap1 : ((calls.take N).map NoteCall.noteOnMessage).length = N := by
    rw [List.length_map]; exact htake
  have hmap2 : ((calls.take N).map NoteCall.startedSlot).length = N := by
    rw [List.length_map]; exact htake
  have hrun : StartNoteEvents (calls.take N) (p0.SetNumberOfNoteSlots N, c) =
      ({ NoteEvents := (calls.take N).map NoteCall.startedSlot },
       { c with
         incomingMessages := c.incomingMessages ++ (calls.take N).map NoteCall.noteOnMessage }) := by
    rw [SetNumberOfNoteSlots_eq]
    have := StartNoteEvents_fresh (calls.take N) [] N c (by simp) (by omega)
    simpa [htake] using this
  have hall : ∀ s ∈ (calls.take N).map NoteCall.startedSlot, s.IsActive = true := by
    intro s hs
    obtain ⟨k, _, rfl⟩ := List.mem_map.mp hs
    rfl
  refine ⟨hrun, hmap1, ?_, by rw [hrun]; exact hmap2, by rw [hrun]; exact hall, ?_⟩
  · intro m hm
    obtain ⟨k, _, rfl⟩ := List.mem_map.mp hm
    rfl
  · conv_lhs => rw [← List.take_append_drop N calls]
    rw [StartNoteEvents_append, hrun]
    exact StartNoteEvents_all_active _ _ _ hall

/-- C3 at a pool of two slots and the three calls for notes 60, 64 and 67: the third
call is dropped. -/
theorem fresh_pool_takes_exactly_N_notes_witness :
    [call60, call64, call67].length = 2 + 1 ∧
    StartNoteEvents [call60, call64] (saturatedPool.SetNumberOfNoteSlots (2 : Nat), quietCollector) =
      ({ NoteEvents := [call60.startedSlot, call64.startedSlot] },
       { quietCollector with
         incomingMessages := [call60.noteOnMessage, call64.noteOnMessage] }) ∧
    StartNoteEvents [call60, call64, call67]
        (saturatedPool.SetNumberOfNoteSlots (2 : Nat), quietCollector) =
      StartNoteEvents [call60, call64]
        (saturatedPool.SetNumberOfNoteSlots (2 : Nat), quietCollector) := by
  have h := fresh_pool_takes_exactly_N_notes saturatedPool quietCollector 2
    [call60, call64, call67] rfl
  exact ⟨rfl, h.1, h.2.2.2.2.2⟩

/-! ### One slot: timers, `EndNote`, `StartNote`, `ScheduleEndNote` -/

/-- The method `EndNote` leaves the slot's timer as it was. -/
theorem EndNote_NoteOffHandle (s : UNoteEventInfo) (c : MidiMessageCollector) (now : Rat) :
    (s.EndNote c now).1.NoteOffHandle = s.NoteOffHandle := rfl

/-- The result of `ScheduleEndNote` with a timer manager, in closed form. -/
theorem ScheduleEndNote_eq (s : UNoteEventInfo) (now : Rat) :
    s.ScheduleEndNote true now =
      { s with
        TimerManager := true, NoteOffHandle := some (now + s.NoteLengthMs),
        HasNoteOffScheduled := true } := by
  simp [ScheduleEndNote, FTimerManager.SetTimer, FTimerManager.ClearTimer]

/-- Counterexample to C4 as stated: a manual `EndNote` at 1200 on a sounding slot whose
timer is due at 1516 leaves that timer pending, and its firing at 1516 calls `EndNote` again
and puts a second NoteOff into the collector. -/
theorem EndNote_keeps_timer_pending :
    soundingSlot.IsActive = true ∧ soundingSlot.NoteOffHandle = some 1516 ∧
    (soundingSlot.EndNote quietCollector 1200).1.NoteOffHandle = some 1516 ∧
    ((soundingSlot.EndNote quietCollector 1200).1.TimerFired
        (soundingSlot.EndNote quietCollector 1200).2 1516).2.incomingMessages =
      [{ kind := MidiKind.noteOff, channel := 1, noteNumber := 60, velocity := 4 / 5,
         timeStamp := 1200 / 1000 },
       { kind := MidiKind.noteOff, channel := 0, noteNumber := 0, velocity := 0,
         timeStamp := 1516 / 1000 }] := by
  refine ⟨rfl, rfl, rfl, ?_⟩
  simp [soundingSlot, quietCollector, EndNote, UNoteEventInfo.TimerFired, MidiMessageCollector.addMessageToQueue,
    MidiMessage.noteOff, MidiMessage.setTimeStamp, div_eq_mul_inv]

/-- C4, amended. On a slot with a note-off timer pending (the slot's `TimerManager` is then
set), active or not, `ClearTimer` leaves the slot with no pending timer and changes
nothing else, so that no later timer firing does anything: the slot and the collector stay
as they are and no NoteOff is emitted. `EndNote` does not cancel the timer: it leaves the
slot's timer as it was. -/
theorem ClearTimer_cancels_pending_timer (s : UNoteEventInfo) (c : MidiMessageCollector)
    (deadline later : Rat)
    (hpending : s.NoteOffHandle = some deadline) (hmanager : s.TimerManager = true) :
    s.ClearTimer = { s with NoteOffHandle := none } ∧
    s.ClearTimer.TimerFired c later = (s.ClearTimer, c) ∧
    (∀ now : Rat, (s.EndNote c now).1.NoteOffHandle = some deadline) := by
  have hclear : s.ClearTimer = { s with NoteOffHandle := none } := by
    simp [ClearTimer, hmanager, FTimerManager.ClearTimer]
  refine ⟨hclear, ?_, ?_⟩
  · rw [hclear]; simp [UNoteEventInfo.TimerFired]
  · intro now; rw [EndNote_NoteOffHandle]; exact hpending

/-- C4, amended, at the sounding slot whose timer is due at 1516. -/
theorem ClearTimer_cancels_pending_timer_witness :
    soundingSlot.IsActive = true ∧ soundingSlot.NoteOffHandle = some 1516 ∧
    soundingSlot.TimerManager = true ∧
    soundingSlot.ClearTimer = { soundingSlot with NoteOffHandle := none } ∧
    soundingSlot.ClearTimer.TimerFired quietCollector 1516 =
      (soundingSlot.ClearTimer, quietCollector) :=
  ⟨rfl, rfl, rfl,
   (ClearTimer_cancels_pending_timer soundingSlot quietCollector 1516 1516 rfl rfl).1,
   (ClearTimer_cancels_pending_timer soundingSlot quietCollector 1516 1516 rfl rfl).2.1⟩

/-- Counterexample to C5 as stated: on a slot that has been started, `EndNote` followed by
`EndNote` puts two NoteOff messages into the collector, a single `EndNote` one. -/
theorem EndNote_twice_emits_twice :
    ((unscheduledSlot.EndNote quietCollector 1200).1.EndNote
        (unscheduledSlot.EndNote quietCollector 1200).2 1300).2.incomingMessages =
      [{ kind := MidiKind.noteOff, channel := 1, noteNumber := 60, velocity := 4 / 5,
         timeStamp := 1200 / 1000 },
       { kind := MidiKind.noteOff, channel := 0, noteNumber := 0, velocity := 0,
         timeStamp := 1300 / 1000 }] ∧
    (unscheduledSlot.EndNote quietCollector 1200).2.incomingMessages =
      [{ kind := MidiKind.noteOff, channel := 1, noteNumber := 60, velocity := 4 / 5,
         timeStamp := 1200 / 1000 }] := by
  constructor <;>
  simp [unscheduledSlot, quietCollector, EndNote, MidiMessageCollector.addMessageToQueue,
    MidiMessage.noteOff, MidiMessage.setTimeStamp, div_eq_mul_inv]

/-- C5, amended. `EndNote` is idempotent on the slot: `EndNote` followed by `EndNote` leaves
the same slot state as a single `EndNote`. Its guard is on the collector pointer, which
`StartNote` sets and `EndNote` leaves as it is: a slot that was never started (null
`MidiCollector`, as in a fresh slot) emits no NoteOff, and a slot whose pointer is set
emits exactly one NoteOff with its channel, note and off-velocity. -/
theorem EndNote_idempotent_on_slot (s : UNoteEventInfo) (c c2 : MidiMessageCollector)
    (now now2 : Rat) :
    ((s.EndNote c now).1.EndNote c2 now2).1 = (s.EndNote c now).1 ∧
    (s.EndNote c now).1.MidiCollector = s.MidiCollector ∧
    (∀ (ch note : Int) (onV offV dur : Rat),
      (s.StartNote c ch note onV offV dur now).1.MidiCollector = true) ∧
    (s.MidiCollector = false → (s.EndNote c now).2 = c) ∧
    (s.MidiCollector = true →
      (s.EndNote c now).2 =
        { c with
          incomingMessages := c.incomingMessages ++
            [{ kind := MidiKind.noteOff, channel := s.MidiChannel, noteNumber := s.MidiNote,
               velocity := s.NoteOffVelocity, timeStamp := now / 1000 }] }) ∧
    (({} : UNoteEventInfo).EndNote c now = ({}, c)) := by
  refine ⟨rfl, rfl, fun _ _ _ _ _ => rfl, ?_, ?_, ?_⟩
  · intro h; simp [EndNote, h]
  · intro h
    simp [EndNote, h, MidiMessageCollector.addMessageToQueue, MidiMessage.noteOff,
      MidiMessage.setTimeStamp, div_eq_mul_inv]
  · simp [EndNote]

/-- Counterexample to C6 as stated: `StartNote` at 1300 on a free slot that still has a
timer pending, due at 1516, leaves that timer pending, and its firing at 1516 ends the new
500 ms note. -/
theorem StartNote_keeps_stale_timer :
    (staleTimerSlot.StartNote quietCollector 1 64 1 (4 / 5) 500 1300).1.NoteOffHandle =
      some 1516 ∧
    ((staleTimerSlot.StartNote quietCollector 1 64 1 (4 / 5) 500 1300).1.TimerFired
        (staleTimerSlot.StartNote quietCollector 1 64 1 (4 / 5) 500 1300).2 1516).1.IsActive =
      false ∧
    ((staleTimerSlot.StartNote quietCollector 1 64 1 (4 / 5) 500 1300).1.TimerFired
        (staleTimerSlot.StartNote quietCollector 1 64 1 (4 / 5) 500 1300).2 1516).2.incomingMessages =
      [{ kind := MidiKind.noteOn, channel := 1, noteNumber := 64, velocity := 1,
         timeStamp := 1300 / 1000 },
       { kind := MidiKind.noteOff, channel := 1, noteNumber := 64, velocity := 4 / 5,
         timeStamp := 1516 / 1000 }] := by
  refine ⟨rfl, ?_, ?_⟩ <;>
  simp [staleTimerSlot, quietCollector, StartNote, EndNote, UNoteEventInfo.TimerFired,
    MidiMessageCollector.addMessageToQueue, MidiMessage.noteOn, MidiMessage.noteOff,
    MidiMessage.setTimeStamp, div_eq_mul_inv]

/-- C6, amended. `StartNote` clears `HasNoteOffScheduled` and leaves the slot's timer as it
was: it arms none and cancels none. A timer still pending from an earlier note is
cancelled by the next `ScheduleEndNote`, which clears the handle before it arms the
timer of the new note, due `noteLengthMs` after that call. -/
theorem StartNote_leaves_timer_untouched (s : UNoteEventInfo) (c : MidiMessageCollector)
    (ch note : Int) (onV offV dur now tick : Rat) :
    (s.StartNote c ch note onV offV dur now).1.HasNoteOffScheduled = false ∧
    (s.StartNote c ch note onV offV dur now).1.NoteOffHandle = s.NoteOffHandle ∧
    (s.StartNote c ch note onV offV dur now).1.TimerManager = s.TimerManager ∧
    ((s.StartNote c ch note onV offV dur now).1.ScheduleEndNote true tick).NoteOffHandle =
      some (tick + dur) := by
  refine ⟨rfl, rfl, rfl, ?_⟩
  rw [ScheduleEndNote_eq]
  rfl

/-- Counterexample to C7 as stated: `ScheduleEndNote` on a fresh, inactive slot arms a timer
and sets `HasNoteOffScheduled`, and on a slot already scheduled for 1516 it moves the
deadline to 2500. -/
theorem ScheduleEndNote_has_no_guard :
    ({} : UNoteEventInfo).IsActive = false ∧
    ({} : UNoteEventInfo).ScheduleEndNote true 1000 =
      { TimerManager := true, NoteOffHandle := some 1000, HasNoteOffScheduled := true } ∧
    ({} : UNoteEventInfo).ScheduleEndNote true 1000 ≠ {} ∧
    soundingSlot.HasNoteOffScheduled = true ∧
    (soundingSlot.ScheduleEndNote true 2000).NoteOffHandle = some 2500 ∧
    soundingSlot.ScheduleEndNote true 2000 ≠ soundingSlot := by
  have h1 : ({} : UNoteEventInfo).ScheduleEndNote true 1000 =
      { TimerManager := true, NoteOffHandle := some 1000, HasNoteOffScheduled := true } := by
    rw [ScheduleEndNote_eq]; simp
  have h2 : (soundingSlot.ScheduleEndNote true 2000).NoteOffHandle = some 2500 := by
    rw [ScheduleEndNote_eq]; simp [soundingSlot]; norm_num
  refine ⟨rfl, h1, ?_, rfl, h2, ?_⟩
  · rw [h1]; intro h; cases h
  · intro h
    rw [h] at h2
    simp [soundingSlot] at h2

/-- A slot the tick does not select is left as it is. -/
theorem ScheduleNoteEndsForActiveNotes_getElem? (p : UNoteEventPlayer) (tm : Bool) (now : Rat)
    (i : Nat) :
    (p.ScheduleNoteEndsForActiveNotes tm now).NoteEvents[i]? =
      (p.NoteEvents[i]?).map fun s =>
        if s.IsActive && !s.HasNoteOffScheduled then s.ScheduleEndNote tm now else s := by
  simp [ScheduleNoteEndsForActiveNotes]

/-- C7, amended. `ScheduleEndNote` itself tests only the timer manager. With a null timer
manager it is a no-op. With a non-null one, whatever the slot's `IsActive` and
`HasNoteOffScheduled` flags, it cancels the timer pending under the slot's handle, arms
one one-shot timer that fires `EndNote` `NoteLengthMs` milliseconds later (not before)
and sets `HasNoteOffScheduled`. The guard is in the caller: `ScheduleNoteEndsForActiveNotes`
leaves a slot that is already scheduled or inactive as it is and calls `ScheduleEndNote`
on a slot that is active and not yet scheduled. -/
theorem ScheduleEndNote_guard_is_in_caller (s : UNoteEventInfo) (c : MidiMessageCollector)
    (now : Rat) :
    s.ScheduleEndNote false now = s ∧
    s.ScheduleEndNote true now =
      { s with
        TimerManager := true, NoteOffHandle := some (now + s.NoteLengthMs),
        HasNoteOffScheduled := true } ∧
    (∀ t : Rat, t < now + s.NoteLengthMs →
      (s.ScheduleEndNote true now).TimerFired c t = (s.ScheduleEndNote true now, c)) ∧
    (∀ t : Rat, now + s.NoteLengthMs ≤ t →
      (s.ScheduleEndNote true now).TimerFired c t =
        UNoteEventInfo.EndNote { s.ScheduleEndNote true now with NoteOffHandle := none } c t) ∧
    (∀ (p : UNoteEventPlayer) (i : Nat), p.NoteEvents[i]? = some s →
      (s.HasNoteOffScheduled = true ∨ s.IsActive = false) →
      (p.ScheduleNoteEndsForActiveNotes true now).NoteEvents[i]? = some s) ∧
    (∀ (p : UNoteEventPlayer) (i : Nat), p.NoteEvents[i]? = some s →
      s.IsActive = true → s.HasNoteOffScheduled = false →
      (p.ScheduleNoteEndsForActiveNotes true now).NoteEvents[i]? =
        some (s.ScheduleEndNote true now)) := by
  refine ⟨by simp [ScheduleEndNote], ScheduleEndNote_eq s now, ?_, ?_, ?_, ?_⟩
  · intro t ht
    rw [ScheduleEndNote_eq]
    simp [UNoteEventInfo.TimerFired, not_le.mpr ht]
  · intro t ht
    rw [ScheduleEndNote_eq]
    simp [UNoteEventInfo.TimerFired, ht]
  · intro p i hget hskip
    rw [ScheduleNoteEndsForActiveNotes_getElem?, hget]
    rcases hskip with h | h <;> simp [h]
  · intro p i hget ha hs
    rw [ScheduleNoteEndsForActiveNotes_getElem?, hget]
    simp [ha, hs]

/-- C8. With a non-null timer manager `ScheduleNoteEndsForActiveNotes` keeps the number of
slots, arms a note-off timer (due `NoteLengthMs` after the call) for exactly the slots
that are active and not yet scheduled, and leaves every other slot, inactive or already
scheduled, with its timer untouched; afterwards every active slot has
`HasNoteOffScheduled`, and a repeated call, at any later clock reading, changes nothing:
no deadline is armed again or moved. -/
theorem ScheduleNoteEndsForActiveNotes_schedules_once (p : UNoteEventPlayer) (now : Rat) :
    (p.ScheduleNoteEndsForActiveNotes true now).NoteEvents.length = p.NoteEvents.length ∧
    (∀ (i : Nat) (s : UNoteEventInfo), p.NoteEvents[i]? = some s →
      s.IsActive = true → s.HasNoteOffScheduled = false →
      (p.ScheduleNoteEndsForActiveNotes true now).NoteEvents[i]? =
        some { s with
               TimerManager := true, NoteOffHandle := some (now + s.NoteLengthMs),
               HasNoteOffScheduled := true }) ∧
    (∀ (i : Nat) (s : UNoteEventInfo), p.NoteEvents[i]? = some s →
      (s.IsActive = false ∨ s.HasNoteOffScheduled = true) →
      (p.ScheduleNoteEndsForActiveNotes true now).NoteEvents[i]? = some s) ∧
    (∀ s ∈ (p.ScheduleNoteEndsForActiveNotes true now).NoteEvents,
      s.IsActive = true → s.HasNoteOffScheduled = true) ∧
    (∀ later : Rat,
      (p.ScheduleNoteEndsForActiveNotes true now).ScheduleNoteEndsForActiveNotes true later =
        p.ScheduleNoteEndsForActiveNotes true now) := by
  have hsched : ∀ s ∈ (p.ScheduleNoteEndsForActiveNotes true now).NoteEvents,
      s.IsActive = true → s.HasNoteOffScheduled = true := by
    intro s hs ha
    simp only [ScheduleNoteEndsForActiveNotes, List.mem_map] at hs
    obtain ⟨t, _, rfl⟩ := hs
    by_cases hsel : (t.IsActive && !t.HasNoteOffScheduled) = true
    · rw [if_pos hsel, ScheduleEndNote_eq]
    · rw [if_neg hsel] at ha ⊢
      simpa [ha] using hsel
  refine ⟨by simp [ScheduleNoteEndsForActiveNotes], ?_, ?_, hsched, ?_⟩
  · intro i s hget ha hs
    rw [ScheduleNoteEndsForActiveNotes_getElem?, hget]
    simp [ha, hs, ScheduleEndNote_eq]
  · intro i s hget hskip
    rw [ScheduleNoteEndsForActiveNotes_getElem?, hget]
    rcases hskip with h | h <;> simp [h]
  · intro later
    have hfix : ∀ s ∈ (p.ScheduleNoteEndsForActiveNotes true now).NoteEvents,
        (if s.IsActive && !s.HasNoteOffScheduled then s.ScheduleEndNote true later else s) = s := by
      intro s hs
      by_cases ha : s.IsActive = true
      · simp [ha, hsched s hs ha]
      · simp [ha]
    generalize p.ScheduleNoteEndsForActiveNotes true now = q at hfix
    cases q with
    | mk slots =>
      simp only [ScheduleNoteEndsForActiveNotes, UNoteEventPlayer.mk.injEq]
      calc slots.map (fun s =>
              if s.IsActive && !s.HasNoteOffScheduled then s.ScheduleEndNote true later else s)
          = slots.map id := List.map_congr_left hfix
        _ = slots := List.map_id slots

/-! ### Timed runs of the pool -/

/-- An index that holds a slot lies within the pool. -/
theorem lt_length_of_getElem? (l : List UNoteEventInfo) (i : Nat) (s : UNoteEventInfo)
    (h : l[i]? = some s) : i < l.length := by
  by_contra hcon
  rw [List.getElem?_eq_none (by omega)] at h
  cases h

/-- A run can be cut in two. -/
theorem runEvents_append (xs ys : List PoolEvent)
    (w : UNoteEventPlayer × MidiMessageCollector) :
    runEvents (xs ++ ys) w = runEvents ys (runEvents xs w) := by
  induction xs generalizing w with
  | nil => rfl
  | cons e es ih => simp [runEvents, ih]

/-- No event leaves a timer pending on a slot whose `TimerManager` is null. -/
theorem apply_pending_timer_has_manager (e : PoolEvent)
    (w : UNoteEventPlayer × MidiMessageCollector)
    (h : ∀ s ∈ w.1.NoteEvents, s.NoteOffHandle ≠ none → s.TimerManager = true) :
    ∀ s ∈ (e.apply w).1.NoteEvents, s.NoteOffHandle ≠ none → s.TimerManager = true := by
  cases e with
  | startNote k =>
    intro s hs hpend
    simp only [PoolEvent.apply, UNoteEventPlayer.StartNoteEvent] at hs
    split at hs
    · split at hs
      · rename_i t hgt
        rcases List.mem_or_eq_of_mem_set hs with hs | rfl
        · exact h s hs hpend
        · exact h t (List.getElem?_mem hgt) hpend
      · exact h s hs hpend
    · exact h s hs hpend
  | tick now =>
    intro s hs hpend
    simp only [PoolEvent.apply, ScheduleNoteEndsForActiveNotes, List.mem_map] at hs
    obtain ⟨t, ht, rfl⟩ := hs
    by_cases hsel : (t.IsActive && !t.HasNoteOffScheduled) = true
    · rw [if_pos hsel, ScheduleEndNote_eq]
    · rw [if_neg hsel] at hpend ⊢
      exact h t ht hpend
  | timerFired j now =>
    intro s hs hpend
    simp only [PoolEvent.apply, UNoteEventPlayer.TimerFired] at hs
    split at hs
    · rename_i t hgt
      rcases List.mem_or_eq_of_mem_set hs with hs | rfl
      · exact h s hs hpend
      · have ht : t ∈ w.1.NoteEvents := List.getElem?_mem hgt
        unfold UNoteEventInfo.TimerFired at hpend ⊢
        split at hpend
        · split at hpend
          · exact absurd rfl hpend
          · rename_i deadline hh hle
            simp only [hle, if_false] at hpend ⊢
            exact h t ht hpend
        · rename_i hh
          exact absurd hh hpend
    · exact h s hs hpend

/-- In every state a run reaches from a state without such a slot, and so from a freshly
allocated pool, a slot with a pending timer has its `TimerManager` set. -/
theorem runEvents_pending_timer_has_manager (es : List PoolEvent)
    (w : UNoteEventPlayer × MidiMessageCollector)
    (h : ∀ s ∈ w.1.NoteEvents, s.NoteOffHandle ≠ none → s.TimerManager = true) :
    ∀ s ∈ (runEvents es w).1.NoteEvents, s.NoteOffHandle ≠ none → s.TimerManager = true := by
  induction es generalizing w with
  | nil => exact h
  | cons e es ih => exact ih (e.apply w) (apply_pending_timer_has_manager e w h)

/-- C10. On a component that has not been prepared to play (`Initialised = false`) every
control call returns the component exactly as it was, for all arguments: collector queue,
note slots, timers and voice parameters are unchanged by `PlayNoteEvent`, `TriggerNoteOn`,
`TriggerNoteOff`, `SetWaveformType`, `SetAttackRateSeconds`, `SetDecayRateSeconds`,
`SetReleaseRateSeconds`, `SetSustainLevel` and `TickComponent`. `PrepareToPlay` sets
`Initialised`, and no other operation of the component changes the flag, in any state. -/
theorem control_calls_gated_by_Initialised (u : UUnrealSynthesiserComponent)
    (hgate : u.Initialised = false) :
    (∀ (ch note : Int) (onV offV timeMs now : Rat),
      u.PlayNoteEvent ch note onV offV timeMs now = u) ∧
    (∀ (ch note : Int) (vel now : Rat), u.TriggerNoteOn ch note vel now = u) ∧
    (∀ (ch note : Int) (vel now : Rat), u.TriggerNoteOff ch note vel now = u) ∧
    (∀ w : WaveType, u.SetWaveformType w = u) ∧
    (∀ rate : Rat, u.SetAttackRateSeconds rate = u) ∧
    (∀ rate : Rat, u.SetDecayRateSeconds rate = u) ∧
    (∀ rate : Rat, u.SetReleaseRateSeconds rate = u) ∧
    (∀ level : Rat, u.SetSustainLevel level = u) ∧
    (∀ now : Rat, u.TickComponent now = u) ∧
    (∀ sampleRate : Rat, (u.PrepareToPlay sampleRate).Initialised = true) ∧
    (∀ v : UUnrealSynthesiserComponent,
      (∀ (ch note : Int) (onV offV timeMs now : Rat),
        (v.PlayNoteEvent ch note onV offV timeMs now).Initialised = v.Initialised) ∧
      (∀ (ch note : Int) (vel now : Rat),
        (v.TriggerNoteOn ch note vel now).Initialised = v.Initialised) ∧
      (∀ (ch note : Int) (vel now : Rat),
        (v.TriggerNoteOff ch note vel now).Initialised = v.Initialised) ∧
      (∀ w : WaveType, (v.SetWaveformType w).Initialised = v.Initialised) ∧
      (∀ rate : Rat, (v.SetAttackRateSeconds rate).Initialised = v.Initialised) ∧
      (∀ rate : Rat, (v.SetDecayRateSeconds rate).Initialised = v.Initialised) ∧
      (∀ rate : Rat, (v.SetReleaseRateSeconds rate).Initialised = v.Initialised) ∧
      (∀ level : Rat, (v.SetSustainLevel level).Initialised = v.Initialised) ∧
      (∀ now : Rat, (v.TickComponent now).Initialised = v.Initialised) ∧
      v.InitializeComponent.Initialised = v.Initialised ∧
      (∀ remove render (b : AudioSourceChannelInfo),
        (v.GetNextAudioBlock remove render b).1.Initialised = v.Initialised)) := by
  refine ⟨?_, ?_, ?_, ?_, ?_, ?_, ?_, ?_, ?_, ?_, ?_⟩
  · intros; simp [UUnrealSynthesiserComponent.PlayNoteEvent, hgate]
  · intros; simp [UUnrealSynthesiserComponent.TriggerNoteOn, hgate]
  · intros; simp [UUnrealSynthesiserComponent.TriggerNoteOff, hgate]
  · intros; simp [UUnrealSynthesiserComponent.SetWaveformType, hgate]
  · intros; simp [UUnrealSynthesiserComponent.SetAttackRateSeconds, hgate]
  · intros; simp [UUnrealSynthesiserComponent.SetDecayRateSeconds, hgate]
  · intros; simp [UUnrealSynthesiserComponent.SetReleaseRateSeconds, hgate]
  · intros; simp [UUnrealSynthesiserComponent.SetSustainLevel, hgate]
  · intros; simp [UUnrealSynthesiserComponent.TickComponent, hgate]
  · intros; rfl
  · intro v
    refine ⟨?_, ?_, ?_, ?_, ?_, ?_, ?_, ?_, ?_, rfl, ?_⟩
    · intros; unfold UUnrealSynthesiserComponent.PlayNoteEvent; split <;> rfl
    · intros; unfold UUnrealSynthesiserComponent.TriggerNoteOn; split <;> rfl
    · intros; unfold UUnrealSynthesiserComponent.TriggerNoteOff; split <;> rfl
    · intros; unfold UUnrealSynthesiserComponent.SetWaveformType; split <;> rfl
    · intros; unfold UUnrealSynthesiserComponent.SetAttackRateSeconds; split <;> rfl
    · intros; unfold UUnrealSynthesiserComponent.SetDecayRateSeconds; split <;> rfl
    · intros; unfold UUnrealSynthesiserComponent.SetReleaseRateSeconds; split <;> rfl
    · intros; unfold UUnrealSynthesiserComponent.SetSustainLevel; split <;> rfl
    · intros; unfold UUnrealSynthesiserComponent.TickComponent; split <;> rfl
    · intros; rfl

/-- C10 at a component that has not been prepared: a note trigger, a parameter change and
a tick leave it as it is, and `PrepareToPlay` opens the gate. -/
theorem control_calls_gated_by_Initialised_witness :
    unpreparedComponent.Initialised = false ∧
    unpreparedComponent.PlayNoteEvent 1 60 1 (4 / 5) 500 1000 = unpreparedComponent ∧
    unpreparedComponent.SetSustainLevel (1 / 2) = unpreparedComponent ∧
    unpreparedComponent.TickComponent 1016 = unpreparedComponent ∧
    (unpreparedComponent.PrepareToPlay 44100).Initialised = true :=
  ⟨rfl,
   (control_calls_gated_by_Initialised unpreparedComponent rfl).1 1 60 1 (4 / 5) 500 1000,
   (control_calls_gated_by_Initialised unpreparedComponent rfl).2.2.2.2.2.2.2.1 (1 / 2),
   (control_calls_gated_by_Initialised unpreparedComponent rfl).2.2.2.2.2.2.2.2.1 1016,
   (control_calls_gated_by_Initialised unpreparedComponent rfl).2.2.2.2.2.2.2.2.2.1 44100⟩

/-! ### `SetNumberOfNoteSlots` -/

/-- The method `ClearNoteOffTimers` clears the handle of every slot whose `TimerManager` is
set and changes nothing else. -/
theorem ClearNoteOffTimers_getElem? (p : UNoteEventPlayer) (i : Nat) :
    p.ClearNoteOffTimers.NoteEvents[i]? = (p.NoteEvents[i]?).map UNoteEventInfo.ClearTimer := by
  simp [ClearNoteOffTimers]

/-- Putting back the slot that is already there changes nothing. -/
theorem set_same (l : List UNoteEventInfo) (i : Nat) (s : UNoteEventInfo)
    (h : l[i]? = some s) : l.set i s = l := by
  apply List.ext_getElem?
  intro j
  by_cases hji : i = j
  · subst hji
    rw [List.getElem?_set_self (lt_length_of_getElem? l i s h), h]
  · rw [List.getElem?_set_ne hji]

/-- Every event is of one of three shapes. It is quiet: the collector is untouched and
each slot is either left alone or, being active and unscheduled, handed to
`ScheduleEndNote`. Or it starts a note: a `StartNoteEvent` call finds the inactive slot
`idx`, which takes the call, and the NoteOn of the call joins the collector. Or it ends
a note: the timer of slot `j` is due and fires, the slot is reset by `EndNote`, and, if
the slot's collector pointer is set, the NoteOff of its note joins the collector. -/
theorem apply_cases (e : PoolEvent) (w : UNoteEventPlayer × MidiMessageCollector) :
    (∃ f : UNoteEventInfo → UNoteEventInfo,
      (∀ s, f s = s ∨
        (s.IsActive = true ∧ s.HasNoteOffScheduled = false ∧
          ∃ now : Rat, f s = s.ScheduleEndNote true now)) ∧
      e.apply w = ({ NoteEvents := w.1.NoteEvents.map f }, w.2)) ∨
    (∃ (k : NoteCall) (idx : Nat) (s : UNoteEventInfo),
      e = PoolEvent.startNote k ∧ w.1.FindAvailableNoteIndex = (idx : Int) ∧
      w.1.NoteEvents[idx]? = some s ∧ s.IsActive = false ∧
      e.apply w =
        ({ NoteEvents := w.1.NoteEvents.set idx
            { s with
              MidiCollector := true, MidiChannel := k.midiChannel,
              MidiNote := k.midiNoteNumber, NoteOnVelocity := k.onVelocity,
              NoteOffVelocity := k.offVelocity, NoteLengthMs := k.noteTimeMs,
              IsActive := true, HasNoteOffScheduled := false } },
         { w.2 with incomingMessages := w.2.incomingMessages ++ [k.noteOnMessage] })) ∨
    (∃ (j : Nat) (now deadline : Rat) (s : UNoteEventInfo),
      e = PoolEvent.timerFired j now ∧ w.1.NoteEvents[j]? = some s ∧
      s.NoteOffHandle = some deadline ∧ deadline ≤ now ∧
      e.apply w =
        ({ NoteEvents := w.1.NoteEvents.set j
            { s with
              NoteOffHandle := none, MidiChannel := 0, MidiNote := 0, NoteOnVelocity := 0,
              NoteOffVelocity := 0, NoteLengthMs := 0, IsActive := false,
              HasNoteOffScheduled := false } },
         if s.MidiCollector then
           { w.2 with
             incomingMessages := w.2.incomingMessages ++
               [{ kind := MidiKind.noteOff, channel := s.MidiChannel, noteNumber := s.MidiNote,
                  velocity := s.NoteOffVelocity, timeStamp := now / 1000 }] }
         else w.2)) := by
  obtain ⟨p, c⟩ := w
  have hquiet : ∃ f : UNoteEventInfo → UNoteEventInfo,
      (∀ s, f s = s ∨
        (s.IsActive = true ∧ s.HasNoteOffScheduled = false ∧
          ∃ now : Rat, f s = s.ScheduleEndNote true now)) ∧
      (p, c) = (({ NoteEvents := p.NoteEvents.map f } : UNoteEventPlayer), c) :=
    ⟨id, fun s => Or.inl rfl, by simp⟩
  cases e with
  | startNote k =>
    by_cases hall : ∀ t ∈ p.NoteEvents, t.IsActive = true
    · left
      simp only [PoolEvent.apply]
      rw [StartNoteEvent_of_all_active p c _ _ _ _ _ _ hall]
      exact hquiet
    · right; left
      have hex : ∃ t ∈ p.NoteEvents, t.IsActive = false := by
        by_contra hcon
        apply hall
        intro t ht
        by_contra ht'
        exact hcon ⟨t, ht, by simpa using ht'⟩
      obtain ⟨idx, s, hfind, hget, hina, _⟩ := findAvailableFrom_found p.NoteEvents 0 hex
      have hfind' : p.FindAvailableNoteIndex = (idx : Int) := by
        simpa [FindAvailableNoteIndex] using hfind
      refine ⟨k, idx, s, rfl, hfind', hget, hina, ?_⟩
      simp only [PoolEvent.apply]
      rw [StartNoteEvent_of_found p c _ _ _ _ _ _ idx s hfind' hget]
      simp [UNoteEventInfo.StartNote, NoteCall.noteOnMessage,
        MidiMessageCollector.addMessageToQueue, MidiMessage.noteOn, MidiMessage.setTimeStamp,
        div_eq_mul_inv]
  | tick now =>
    left
    refine ⟨fun s => if s.IsActive && !s.HasNoteOffScheduled then s.ScheduleEndNote true now else s,
      ?_, rfl⟩
    intro s
    by_cases hsel : (s.IsActive && !s.HasNoteOffScheduled) = true
    · right
      simp only [hsel, if_true]
      simp at hsel
      exact ⟨hsel.1, hsel.2, now, rfl⟩
    · left; simp [hsel]
  | timerFired j now =>
    simp only [PoolEvent.apply, UNoteEventPlayer.TimerFired]
    cases hget : p.NoteEvents[j]? with
    | none => left; exact hquiet
    | some s =>
      cases hh : s.NoteOffHandle with
      | none =>
        left
        have : s.TimerFired c now = (s, c) := by simp [UNoteEventInfo.TimerFired, hh]
        simp only [this, set_same _ _ _ hget]
        exact hquiet
      | some deadline =>
        by_cases hle : deadline ≤ now
        · right; right
          refine ⟨j, now, deadline, s, rfl, hget, hh, hle, ?_⟩
          simp only [UNoteEventInfo.TimerFired, hh, hle, if_true, UNoteEventInfo.EndNote]
          by_cases hc : s.MidiCollector = true
          · simp [hc, MidiMessageCollector.addMessageToQueue, MidiMessage.noteOff,
              MidiMessage.setTimeStamp, div_eq_mul_inv]
          · simp [hc]
        · left
          have : s.TimerFired c now = (s, c) := by simp [UNoteEventInfo.TimerFired, hh, hle]
          simp only [this, set_same _ _ _ hget]
          exact hquiet

/-! ### Slot invariants -/

/-- No event breaks the slot invariants: a scheduled slot is active, a pending timer
belongs to a scheduled slot, and an active slot has its collector pointer set. -/
theorem apply_slot_invariant (e : PoolEvent) (w : UNoteEventPlayer × MidiMessageCollector)
    (h : ∀ s ∈ w.1.NoteEvents,
      (s.HasNoteOffScheduled = true → s.IsActive = true) ∧
      (s.NoteOffHandle ≠ none → s.HasNoteOffScheduled = true) ∧
      (s.IsActive = true → s.MidiCollector = true)) :
    ∀ s ∈ (e.apply w).1.NoteEvents,
      (s.HasNoteOffScheduled = true → s.IsActive = true) ∧
      (s.NoteOffHandle ≠ none → s.HasNoteOffScheduled = true) ∧
      (s.IsActive = true → s.MidiCollector = true) := by
  rcases apply_cases e w with ⟨f, hf, heq⟩ | ⟨k, idx, s0, _, _, hget, hina, heq⟩ |
    ⟨j, now, deadline, s0, _, hget, _, _, heq⟩
  · intro s hs
    rw [heq] at hs
    obtain ⟨t, ht, rfl⟩ := List.mem_map.mp hs
    rcases hf t with hft | ⟨hact, _, now, hft⟩
    · rw [hft]; exact h t ht
    · rw [hft, ScheduleEndNote_eq]
      exact ⟨fun _ => hact, fun _ => rfl, (h t ht).2.2⟩
  · intro s hs
    rw [heq] at hs
    rcases List.mem_or_eq_of_mem_set hs with hs | rfl
    · exact h s hs
    · have h0 := h s0 (List.getElem?_mem hget)
      refine ⟨fun _ => rfl, ?_, fun _ => rfl⟩
      intro hpend
      have hsch := h0.2.1 hpend
      have hact := h0.1 hsch
      rw [hina] at hact
      cases hact
  · intro s hs
    rw [heq] at hs
    rcases List.mem_or_eq_of_mem_set hs with hs | rfl
    · exact h s hs
    · exact ⟨fun hc => (by cases hc), fun hc => absurd rfl hc, fun hc => (by cases hc)⟩

/-- The slot invariants hold along every run that starts where they hold. -/
theorem runEvents_slot_invariant (es : List PoolEvent)
    (w : UNoteEventPlayer × MidiMessageCollector)
    (h : ∀ s ∈ w.1.NoteEvents,
      (s.HasNoteOffScheduled = true → s.IsActive = true) ∧
      (s.NoteOffHandle ≠ none → s.HasNoteOffScheduled = true) ∧
      (s.IsActive = true → s.MidiCollector = true)) :
    ∀ s ∈ (runEvents es w).1.NoteEvents,
      (s.HasNoteOffScheduled = true → s.IsActive = true) ∧
      (s.NoteOffHandle ≠ none → s.HasNoteOffScheduled = true) ∧
      (s.IsActive = true → s.MidiCollector = true) := by
  induction es generalizing w with
  | nil => exact h
  | cons e es ih => exact ih (e.apply w) (apply_slot_invariant e w h)

/-- A freshly allocated pool satisfies the slot invariants. -/
theorem fresh_slot_invariant (p0 : UNoteEventPlayer) (n : Int) (c0 : MidiMessageCollector) :
    ∀ s ∈ (p0.SetNumberOfNoteSlots n, c0).1.NoteEvents,
      (s.HasNoteOffScheduled = true → s.IsActive = true) ∧
      (s.NoteOffHandle ≠ none → s.HasNoteOffScheduled = true) ∧
      (s.IsActive = true → s.MidiCollector = true) := by
  intro s hs
  rw [SetNumberOfNoteSlots_eq] at hs
  rw [List.eq_of_mem_replicate hs]
  exact ⟨fun hc => (by cases hc), fun hc => absurd rfl hc, fun hc => (by cases hc)⟩

/-- C12. In every state reached from a freshly allocated pool by any interleaving of
`StartNoteEvent` calls, ticks (`ScheduleNoteEndsForActiveNotes`) and timer firings, every
slot satisfies: `HasNoteOffScheduled` implies `IsActive`, and the slot has a pending
timer only if `HasNoteOffScheduled` holds; so a free slot has no pending timer. -/
theorem reachable_slots_scheduled_implies_active (p0 : UNoteEventPlayer) (n : Int)
    (c0 : MidiMessageCollector) (es : List PoolEvent) (s : UNoteEventInfo)
    (hs : s ∈ (runEvents es (p0.SetNumberOfNoteSlots n, c0)).1.NoteEvents) :
    (s.HasNoteOffScheduled = true → s.IsActive = true) ∧
    (s.NoteOffHandle ≠ none → s.HasNoteOffScheduled = true) ∧
    (s.IsActive = false → s.NoteOffHandle = none) := by
  have h := runEvents_slot_invariant es _ (fresh_slot_invariant p0 n c0) s hs
  refine ⟨h.1, h.2.1, ?_⟩
  intro hina
  by_contra hpend
  have hact := h.1 (h.2.1 hpend)
  rw [hina] at hact
  cases hact

/-- After note 60 is called at 1000 on a fresh pool of one slot and a tick at 1016 has
scheduled it, the slot is the sounding slot with its timer due at 1516. -/
theorem run_call60_tick (p0 : UNoteEventPlayer) :
    runEvents [PoolEvent.startNote call60, PoolEvent.tick 1016]
        (p0.SetNumberOfNoteSlots 1, quietCollector) =
      ({ NoteEvents := [soundingSlot] },
       { quietCollector with incomingMessages := [call60.noteOnMessage] }) := by
  rw [SetNumberOfNoteSlots_eq]
  simp only [runEvents, PoolEvent.apply]
  have h1 := StartNoteEvent_first_fresh [] [] quietCollector call60 (by simp)
  simp only [List.nil_append] at h1
  have e1 : List.replicate (1 : Int).toNat ({} : UNoteEventInfo) = [{}] := rfl
  rw [e1, h1]
  simp only [ScheduleNoteEndsForActiveNotes, List.map, NoteCall.startedSlot]
  simp [ScheduleEndNote_eq, soundingSlot, call60, quietCollector]
  norm_num

/-- C12 at the slot of a one-slot pool after a call and a tick. -/
theorem reachable_slots_scheduled_implies_active_witness :
    soundingSlot ∈ (runEvents [PoolEvent.startNote call60, PoolEvent.tick 1016]
      (({} : UNoteEventPlayer).SetNumberOfNoteSlots 1, quietCollector)).1.NoteEvents ∧
    (soundingSlot.HasNoteOffScheduled = true → soundingSlot.IsActive = true) ∧
    (soundingSlot.NoteOffHandle ≠ none → soundingSlot.HasNoteOffScheduled = true) ∧
    (soundingSlot.IsActive = false → soundingSlot.NoteOffHandle = none) := by
  have hs : soundingSlot ∈ (runEvents [PoolEvent.startNote call60, PoolEvent.tick 1016]
      (({} : UNoteEventPlayer).SetNumberOfNoteSlots 1, quietCollector)).1.NoteEvents := by
    rw [run_call60_tick]
    simp
  exact ⟨hs, reachable_slots_scheduled_implies_active {} 1 quietCollector
    [PoolEvent.startNote call60, PoolEvent.tick 1016] soundingSlot hs⟩

/-! ### What the slots emit -/

/-- The log of a run cut in two. -/
theorem emissionLog_append (xs ys : List PoolEvent)
    (w : UNoteEventPlayer × MidiMessageCollector) :
    emissionLog (xs ++ ys) w = emissionLog xs w ++ emissionLog ys (runEvents xs w) := by
  induction xs generalizing w with
  | nil => rfl
  | cons e es ih => simp [emissionLog, runEvents, ih]

/-- The three shapes of a step with what each hands to the collector, in a state where
the slot invariants hold: a quiet step emits nothing and leaves the note data of every
slot alone; a starting step emits the NoteOn of the call from the slot that takes it; an
ending step emits the NoteOff of the note the slot holds, which is active. -/
theorem apply_emissions_cases (e : PoolEvent) (w : UNoteEventPlayer × MidiMessageCollector)
    (h : ∀ s ∈ w.1.NoteEvents,
      (s.HasNoteOffScheduled = true → s.IsActive = true) ∧
      (s.NoteOffHandle ≠ none → s.HasNoteOffScheduled = true) ∧
      (s.IsActive = true → s.MidiCollector = true)) :
    (∃ f : UNoteEventInfo → UNoteEventInfo,
      (∀ s, (f s).IsActive = s.IsActive ∧ (f s).MidiChannel = s.MidiChannel ∧
        (f s).MidiNote = s.MidiNote ∧ (f s).NoteOffVelocity = s.NoteOffVelocity) ∧
      e.apply w = ({ NoteEvents := w.1.NoteEvents.map f }, w.2) ∧
      e.emissions w = []) ∨
    (∃ (k : NoteCall) (idx : Nat) (s s1 : UNoteEventInfo),
      e = PoolEvent.startNote k ∧
      w.1.NoteEvents[idx]? = some s ∧ s.IsActive = false ∧
      s1.IsActive = true ∧ s1.MidiChannel = k.midiChannel ∧ s1.MidiNote = k.midiNoteNumber ∧
      s1.NoteOffVelocity = k.offVelocity ∧
      e.apply w =
        ({ NoteEvents := w.1.NoteEvents.set idx s1 },
         { w.2 with incomingMessages := w.2.incomingMessages ++ [k.noteOnMessage] }) ∧
      e.emissions w = [{ slot := idx, message := k.noteOnMessage, call := some k }]) ∨
    (∃ (j : Nat) (now : Rat) (s s1 : UNoteEventInfo),
      e = PoolEvent.timerFired j now ∧
      w.1.NoteEvents[j]? = some s ∧ s.IsActive = true ∧ s1.IsActive = false ∧
      e.apply w =
        ({ NoteEvents := w.1.NoteEvents.set j s1 },
         { w.2 with
           incomingMessages := w.2.incomingMessages ++
             [{ kind := MidiKind.noteOff, channel := s.MidiChannel, noteNumber := s.MidiNote,
                velocity := s.NoteOffVelocity, timeStamp := now / 1000 }] }) ∧
      e.emissions w =
        [{ slot := j,
           message := { kind := MidiKind.noteOff, channel := s.MidiChannel,
                        noteNumber := s.MidiNote, velocity := s.NoteOffVelocity,
                        timeStamp := now / 1000 },
           call := none }]) := by
  rcases apply_cases e w with ⟨f, hf, heq⟩ | ⟨k, idx, s0, he, hfind, hget, hina, heq⟩ |
    ⟨j, now, deadline, s0, he, hget, hpend, _, heq⟩
  · left
    refine ⟨f, ?_, heq, ?_⟩
    · intro s
      rcases hf s with hfs | ⟨_, _, now, hfs⟩
      · rw [hfs]; exact ⟨rfl, rfl, rfl, rfl⟩
      · rw [hfs, ScheduleEndNote_eq]; exact ⟨rfl, rfl, rfl, rfl⟩
    · simp [PoolEvent.emissions, PoolEvent.emitted, heq]
  · right; left
    subst he
    refine ⟨k, idx, s0, _, rfl, hget, hina, rfl, rfl, rfl, rfl, heq, ?_⟩
    simp [PoolEvent.emissions, PoolEvent.emitted, heq, PoolEvent.actingSlot,
      PoolEvent.startedBy, hfind]
  · right; right
    have h0 := h s0 (List.getElem?_mem hget)
    have hact : s0.IsActive = true := h0.1 (h0.2.1 (by rw [hpend]; simp))
    have hcol : s0.MidiCollector = true := h0.2.2 hact
    rw [hcol] at heq
    simp only [if_true] at heq
    subst he
    refine ⟨j, now, s0, _, rfl, hget, hact, rfl, heq, ?_⟩
    simp [PoolEvent.emissions, PoolEvent.emitted, heq, PoolEvent.actingSlot,
      PoolEvent.startedBy]
/-- The collector grows by exactly what the log records. -/
theorem apply_incomingMessages (e : PoolEvent) (w : UNoteEventPlayer × MidiMessageCollector)
    (h : ∀ s ∈ w.1.NoteEvents,
      (s.HasNoteOffScheduled = true → s.IsActive = true) ∧
      (s.NoteOffHandle ≠ none → s.HasNoteOffScheduled = true) ∧
      (s.IsActive = true → s.MidiCollector = true)) :
    (e.apply w).2.incomingMessages =
      w.2.incomingMessages ++ (e.emissions w).map Emission.message := by
  rcases apply_emissions_cases e w h with ⟨f, _, heq, hem⟩ | ⟨k, idx, s, s1, _, _, _, _, _, _, _, heq, hem⟩ |
    ⟨j, now, s, s1, _, _, _, _, heq, hem⟩ <;>
  simp [heq, hem]

/-- One step keeps the balance of every slot: NoteOns emitted are NoteOffs emitted, plus one
when the slot is active. -/
theorem apply_slot_balance (e : PoolEvent) (w : UNoteEventPlayer × MidiMessageCollector)
    (log : List Emission)
    (h : ∀ s ∈ w.1.NoteEvents,
      (s.HasNoteOffScheduled = true → s.IsActive = true) ∧
      (s.NoteOffHandle ≠ none → s.HasNoteOffScheduled = true) ∧
      (s.IsActive = true → s.MidiCollector = true))
    (hbal : ∀ (i : Nat) (s : UNoteEventInfo), w.1.NoteEvents[i]? = some s →
      noteOnCount i log = noteOffCount i log + (if s.IsActive then 1 else 0)) :
    ∀ (i : Nat) (s : UNoteEventInfo), (e.apply w).1.NoteEvents[i]? = some s →
      noteOnCount i (log ++ e.emissions w) =
        noteOffCount i (log ++ e.emissions w) + (if s.IsActive then 1 else 0) := by
  rcases apply_emissions_cases e w h with ⟨f, hf, heq, hem⟩ |
    ⟨k, idx, s0, s1, _, hget, hina, hact1, _, _, _, heq, hem⟩ |
    ⟨j, now, s0, s1, _, hget, hact, hina1, heq, hem⟩
  · intro i s hs
    rw [heq] at hs
    simp only [List.getElem?_map] at hs
    cases hg : w.1.NoteEvents[i]? with
    | none => rw [hg] at hs; cases hs
    | some t =>
      rw [hg] at hs
      simp only [Option.map_some', Option.some.injEq] at hs
      rw [hem, List.append_nil, ← hs, (hf t).1]
      exact hbal i t hg
  · intro i s hs
    rw [heq] at hs
    have hidx := lt_length_of_getElem? _ _ _ hget
    by_cases hi : idx = i
    · subst hi
      simp only [List.getElem?_set_self hidx, Option.some.injEq] at hs
      have hprev := hbal idx s0 hget
      rw [hina] at hprev
      rw [hem, ← hs, hact1]
      simp [noteOnCount, noteOffCount, List.countP_append, NoteCall.noteOnMessage] at hprev ⊢
      omega
    · simp only [List.getElem?_set_ne hi] at hs
      have hprev := hbal i s hs
      rw [hem]
      simp [noteOnCount, noteOffCount, List.countP_append, hi] at hprev ⊢
      exact hprev
  · intro i s hs
    rw [heq] at hs
    have hj := lt_length_of_getElem? _ _ _ hget
    by_cases hi : j = i
    · subst hi
      simp only [List.getElem?_set_self hj, Option.some.injEq] at hs
      have hprev := hbal j s0 hget
      rw [hact] at hprev
      rw [hem, ← hs, hina1]
      simp [noteOnCount, noteOffCount, List.countP_append] at hprev ⊢
      omega
    · simp only [List.getElem?_set_ne hi] at hs
      have hprev := hbal i s hs
      rw [hem]
      simp [noteOnCount, noteOffCount, List.countP_append, hi] at hprev ⊢
      exact hprev

/-- One step keeps the balance of the pool: NoteOns emitted are NoteOffs emitted plus the
number of active slots. -/
theorem apply_pool_balance (e : PoolEvent) (w : UNoteEventPlayer × MidiMessageCollector)
    (log : List Emission)
    (h : ∀ s ∈ w.1.NoteEvents,
      (s.HasNoteOffScheduled = true → s.IsActive = true) ∧
      (s.NoteOffHandle ≠ none → s.HasNoteOffScheduled = true) ∧
      (s.IsActive = true → s.MidiCollector = true))
    (hbal : poolNoteOns log = poolNoteOffs log + activeCount w.1) :
    poolNoteOns (log ++ e.emissions w) =
      poolNoteOffs (log ++ e.emissions w) + activeCount (e.apply w).1 := by
  rcases apply_emissions_cases e w h with ⟨f, hf, heq, hem⟩ |
    ⟨k, idx, s0, s1, _, hget, hina, hact1, _, _, _, heq, hem⟩ |
    ⟨j, now, s0, s1, _, hget, hact, hina1, heq, hem⟩
  · rw [hem, List.append_nil, heq, hbal]
    congr 1
    simp only [activeCount, List.countP_map]
    congr 1
    funext s
    simp [(hf s).1]
  · have hidx := lt_length_of_getElem? _ _ _ hget
    have hs0 : w.1.NoteEvents[idx] = s0 := by
      have := List.getElem?_eq_getElem hidx
      rw [hget] at this
      exact (Option.some.inj this).symm
    rw [hem, heq]
    simp only [activeCount, List.countP_set _ _ _ _ hidx, hs0, hina, hact1]
    simp [poolNoteOns, poolNoteOffs, activeCount, List.countP_append,
      NoteCall.noteOnMessage] at hbal ⊢
    omega
  · have hj := lt_length_of_getElem? _ _ _ hget
    have hs0 : w.1.NoteEvents[j] = s0 := by
      have := List.getElem?_eq_getElem hj
      rw [hget] at this
      exact (Option.some.inj this).symm
    have hpos : 0 < w.1.NoteEvents.countP (fun s => s.IsActive) :=
      List.countP_pos_iff.mpr ⟨s0, List.getElem?_mem hget, hact⟩
    rw [hem, heq]
    simp only [activeCount, List.countP_set _ _ _ _ hj, hs0, hina1, hact]
    simp [poolNoteOns, poolNoteOffs, activeCount, List.countP_append] at hbal ⊢
    omega
/-- Along every run that starts with every slot inactive, the collector holds what it held
plus the log, every slot is in balance, and so is the pool. -/
theorem runEvents_balance (es : List PoolEvent) (w0 : UNoteEventPlayer × MidiMessageCollector)
    (hinv : ∀ s ∈ w0.1.NoteEvents,
      (s.HasNoteOffScheduled = true → s.IsActive = true) ∧
      (s.NoteOffHandle ≠ none → s.HasNoteOffScheduled = true) ∧
      (s.IsActive = true → s.MidiCollector = true))
    (hidle : ∀ s ∈ w0.1.NoteEvents, s.IsActive = false) :
    (runEvents es w0).2.incomingMessages =
      w0.2.incomingMessages ++ (emissionLog es w0).map Emission.message ∧
    (∀ (i : Nat) (s : UNoteEventInfo), (runEvents es w0).1.NoteEvents[i]? = some s →
      noteOnCount i (emissionLog es w0) =
        noteOffCount i (emissionLog es w0) + (if s.IsActive then 1 else 0)) ∧
    poolNoteOns (emissionLog es w0) =
      poolNoteOffs (emissionLog es w0) + activeCount (runEvents es w0).1 := by
  induction es using List.reverseRecOn with
  | nil =>
    refine ⟨by simp [runEvents, emissionLog], ?_, ?_⟩
    · intro i s hs
      have := hidle s (List.getElem?_mem hs)
      simp [emissionLog, noteOnCount, noteOffCount, this]
    · have : activeCount w0.1 = 0 := by
        simp only [activeCount, List.countP_eq_zero]
        intro s hs
        simp [hidle s hs]
      simp [emissionLog, poolNoteOns, poolNoteOffs, runEvents, this]
  | append_singleton xs e ih =>
    obtain ⟨ih1, ih2, ih3⟩ := ih
    have hprev := runEvents_slot_invariant xs w0 hinv
    have hrun : runEvents (xs ++ [e]) w0 = e.apply (runEvents xs w0) := by
      rw [runEvents_append]; rfl
    have hlog : emissionLog (xs ++ [e]) w0 =
        emissionLog xs w0 ++ e.emissions (runEvents xs w0) := by
      rw [emissionLog_append]; simp [emissionLog]
    rw [hrun, hlog]
    refine ⟨?_, apply_slot_balance e _ _ hprev ih2, apply_pool_balance e _ _ hprev ih3⟩
    rw [apply_incomingMessages e _ hprev, ih1]
    simp

/-- C13. In every state reached from a freshly allocated pool by `StartNoteEvent` calls,
ticks and timer firings, a slot is active exactly when it has emitted a NoteOn whose
NoteOff has not yet been emitted: the number of NoteOn messages the slot has emitted is
the number of NoteOff messages it has emitted plus 1 if the slot is active and plus 0 if
it is inactive. The log counted here is exactly what the run has added to the collector,
and over the pool the NoteOns are the NoteOffs plus the number of active slots. -/
theorem slot_active_iff_noteOn_pending (p0 : UNoteEventPlayer) (n : Int)
    (c0 : MidiMessageCollector) (es : List PoolEvent) (i : Nat) (s : UNoteEventInfo)
    (hs : (runEvents es (p0.SetNumberOfNoteSlots n, c0)).1.NoteEvents[i]? = some s) :
    (runEvents es (p0.SetNumberOfNoteSlots n, c0)).2.incomingMessages =
      c0.incomingMessages ++
        (emissionLog es (p0.SetNumberOfNoteSlots n, c0)).map Emission.message ∧
    noteOnCount i (emissionLog es (p0.SetNumberOfNoteSlots n, c0)) =
      noteOffCount i (emissionLog es (p0.SetNumberOfNoteSlots n, c0)) +
        (if s.IsActive then 1 else 0) ∧
    (s.IsActive = true ↔
      noteOnCount i (emissionLog es (p0.SetNumberOfNoteSlots n, c0)) =
        noteOffCount i (emissionLog es (p0.SetNumberOfNoteSlots n, c0)) + 1) ∧
    poolNoteOns (emissionLog es (p0.SetNumberOfNoteSlots n, c0)) =
      poolNoteOffs (emissionLog es (p0.SetNumberOfNoteSlots n, c0)) +
        activeCount (runEvents es (p0.SetNumberOfNoteSlots n, c0)).1 := by
  have hidle : ∀ t ∈ (p0.SetNumberOfNoteSlots n, c0).1.NoteEvents, t.IsActive = false := by
    intro t ht
    rw [SetNumberOfNoteSlots_eq] at ht
    rw [List.eq_of_mem_replicate ht]
  obtain ⟨h1, h2, h3⟩ := runEvents_balance es _ (fresh_slot_invariant p0 n c0) hidle
  have hb := h2 i s hs
  refine ⟨h1, hb, ?_, h3⟩
  cases hact : s.IsActive with
  | true => rw [hact] at hb; simpa using hb
  | false =>
    rw [hact] at hb
    simp only [Bool.false_eq_true, if_false, Nat.add_zero] at hb
    simp only [Bool.false_eq_true, false_iff]
    omega

/-- C13 at the slot of a one-slot pool after a call and a tick: the slot is active and has
emitted one NoteOn more than NoteOffs. -/
theorem slot_active_iff_noteOn_pending_witness :
    (runEvents [PoolEvent.startNote call60, PoolEvent.tick 1016]
      (({} : UNoteEventPlayer).SetNumberOfNoteSlots 1, quietCollector)).1.NoteEvents[0]? =
      some soundingSlot ∧
    noteOnCount 0 (emissionLog [PoolEvent.startNote call60, PoolEvent.tick 1016]
      (({} : UNoteEventPlayer).SetNumberOfNoteSlots 1, quietCollector)) =
      noteOffCount 0 (emissionLog [PoolEvent.startNote call60, PoolEvent.tick 1016]
        (({} : UNoteEventPlayer).SetNumberOfNoteSlots 1, quietCollector)) + 1 := by
  have hs : (runEvents [PoolEvent.startNote call60, PoolEvent.tick 1016]
      (({} : UNoteEventPlayer).SetNumberOfNoteSlots 1, quietCollector)).1.NoteEvents[0]? =
      some soundingSlot := by
    rw [run_call60_tick]
    rfl
  exact ⟨hs, (slot_active_iff_noteOn_pending {} 1 quietCollector
    [PoolEvent.startNote call60, PoolEvent.tick 1016] 0 soundingSlot hs).2.2.1.mp rfl⟩

/-! ### A slot is reused after its auto-release -/

/-- C14. For every pool of one slot left by `SetNumberOfNoteSlots (1)`: after
`StartNoteEvent (1, 60, 1.0, 0.8, 500)` the slot holds note 60 and its NoteOn is queued; an
immediate `StartNoteEvent (1, 64, ...)` is dropped, pool and collector staying as they
are; one tick schedules the note-off, due 500 ms after the tick; when that timer has
fired, the NoteOff of note 60 is queued and the slot is inactive with its flags and note
fields at their defaults (only its two pointers stay set); and the reissued
`StartNoteEvent (1, 64, ...)` now succeeds in slot 0 and its NoteOn is queued. -/
theorem slot_reused_after_auto_release (p0 : UNoteEventPlayer) (c : MidiMessageCollector)
    (onV offV dur t0 t1 tk tf t2 : Rat) (hdue : tk + 500 ≤ tf) :
    runEvents [PoolEvent.startNote ⟨1, 60, 1, 4 / 5, 500, t0⟩] (p0.SetNumberOfNoteSlots 1, c) =
      ({ NoteEvents := [{ MidiCollector := true, NoteLengthMs := 500, NoteOnVelocity := 1,
                          NoteOffVelocity := 4 / 5, MidiChannel := 1, MidiNote := 60,
                          IsActive := true }] },
       { c with
         incomingMessages := c.incomingMessages ++
           [{ kind := MidiKind.noteOn, channel := 1, noteNumber := 60, velocity := 1,
              timeStamp := t0 / 1000 }] }) ∧
    runEvents [PoolEvent.startNote ⟨1, 60, 1, 4 / 5, 500, t0⟩,
        PoolEvent.startNote ⟨1, 64, onV, offV, dur, t1⟩] (p0.SetNumberOfNoteSlots 1, c) =
      runEvents [PoolEvent.startNote ⟨1, 60, 1, 4 / 5, 500, t0⟩] (p0.SetNumberOfNoteSlots 1, c) ∧
    runEvents [PoolEvent.startNote ⟨1, 60, 1, 4 / 5, 500, t0⟩,
        PoolEvent.startNote ⟨1, 64, onV, offV, dur, t1⟩, PoolEvent.tick tk]
        (p0.SetNumberOfNoteSlots 1, c) =
      ({ NoteEvents := [{ TimerManager := true, MidiCollector := true,
                          NoteOffHandle := some (tk + 500), NoteLengthMs := 500,
                          NoteOnVelocity := 1, NoteOffVelocity := 4 / 5, MidiChannel := 1,
                          MidiNote := 60, IsActive := true, HasNoteOffScheduled := true }] },
       { c with
         incomingMessages := c.incomingMessages ++
           [{ kind := MidiKind.noteOn, channel := 1, noteNumber := 60, velocity := 1,
              timeStamp := t0 / 1000 }] }) ∧
    runEvents [PoolEvent.startNote ⟨1, 60, 1, 4 / 5, 500, t0⟩,
        PoolEvent.startNote ⟨1, 64, onV, offV, dur, t1⟩, PoolEvent.tick tk,
        PoolEvent.timerFired 0 tf] (p0.SetNumberOfNoteSlots 1, c) =
      ({ NoteEvents := [{ TimerManager := true, MidiCollector := true, NoteOffHandle := none,
                          NoteLengthMs := 0, NoteOnVelocity := 0, NoteOffVelocity := 0,
                          MidiChannel := 0, MidiNote := 0, IsActive := false,
                          HasNoteOffScheduled := false }] },
       { c with
         incomingMessages := c.incomingMessages ++
           [{ kind := MidiKind.noteOn, channel := 1, noteNumber := 60, velocity := 1,
              timeStamp := t0 / 1000 },
            { kind := MidiKind.noteOff, channel := 1, noteNumber := 60, velocity := 4 / 5,
              timeStamp := tf / 1000 }] }) ∧
    runEvents [PoolEvent.startNote ⟨1, 60, 1, 4 / 5, 500, t0⟩,
        PoolEvent.startNote ⟨1, 64, onV, offV, dur, t1⟩, PoolEvent.tick tk,
        PoolEvent.timerFired 0 tf, PoolEvent.startNote ⟨1, 64, onV, offV, dur, t2⟩]
        (p0.SetNumberOfNoteSlots 1, c) =
      ({ NoteEvents := [{ TimerManager := true, MidiCollector := true, NoteOffHandle := none,
                          NoteLengthMs := dur, NoteOnVelocity := onV, NoteOffVelocity := offV,
                          MidiChannel := 1, MidiNote := 64, IsActive := true,
                          HasNoteOffScheduled := false }] },
       { c with
         incomingMessages := c.incomingMessages ++
           [{ kind := MidiKind.noteOn, channel := 1, noteNumber := 60, velocity := 1,
              timeStamp := t0 / 1000 },
            { kind := MidiKind.noteOff, channel := 1, noteNumber := 60, velocity := 4 / 5,
              timeStamp := tf / 1000 },
            { kind := MidiKind.noteOn, channel := 1, noteNumber := 64, velocity := onV,
              timeStamp := t2 / 1000 }] }) := by
  have e1 : (p0.SetNumberOfNoteSlots 1) = { NoteEvents := [{}] } := by
    rw [SetNumberOfNoteSlots_eq]; rfl
  have hstep1 : runEvents [PoolEvent.startNote ⟨1, 60, 1, 4 / 5, 500, t0⟩]
      (p0.SetNumberOfNoteSlots 1, c) =
      ({ NoteEvents := [{ MidiCollector := true, NoteLengthMs := 500, NoteOnVelocity := 1,
                          NoteOffVelocity := 4 / 5, MidiChannel := 1, MidiNote := 60,
                          IsActive := true }] },
       { c with
         incomingMessages := c.incomingMessages ++
           [{ kind := MidiKind.noteOn, channel := 1, noteNumber := 60, velocity := 1,
              timeStamp := t0 / 1000 }] }) := by
    rw [e1]
    simp [runEvents, PoolEvent.apply, UNoteEventPlayer.StartNoteEvent, FindAvailableNoteIndex,
      findAvailableFrom, UNoteEventInfo.StartNote, MidiMessageCollector.addMessageToQueue,
      MidiMessage.noteOn, MidiMessage.setTimeStamp, div_eq_mul_inv]
  have hsplit : ∀ (e : PoolEvent) (es : List PoolEvent) (w : UNoteEventPlayer × MidiMessageCollector),
      runEvents (e :: es) w = runEvents es (runEvents [e] w) := fun _ _ _ => rfl
  have hstep2 : runEvents [PoolEvent.startNote ⟨1, 60, 1, 4 / 5, 500, t0⟩,
        PoolEvent.startNote ⟨1, 64, onV, offV, dur, t1⟩] (p0.SetNumberOfNoteSlots 1, c) =
      runEvents [PoolEvent.startNote ⟨1, 60, 1, 4 / 5, 500, t0⟩] (p0.SetNumberOfNoteSlots 1, c) := by
    rw [hsplit, hstep1]
    simp [runEvents, PoolEvent.apply, UNoteEventPlayer.StartNoteEvent, FindAvailableNoteIndex,
      findAvailableFrom]
  have hsplit2 : ∀ (a b : PoolEvent) (es : List PoolEvent)
      (w : UNoteEventPlayer × MidiMessageCollector),
      runEvents (a :: b :: es) w = runEvents es (runEvents [a, b] w) := fun _ _ _ _ => rfl
  refine ⟨hstep1, hstep2, ?_, ?_, ?_⟩
  · rw [hsplit2 _ _ ([PoolEvent.tick tk]), hstep2, hstep1]
    simp [runEvents, PoolEvent.apply, ScheduleNoteEndsForActiveNotes, ScheduleEndNote_eq]
  · rw [hsplit2 _ _ ([PoolEvent.tick tk, PoolEvent.timerFired 0 tf]), hstep2, hstep1]
    simp [runEvents, PoolEvent.apply, ScheduleNoteEndsForActiveNotes, ScheduleEndNote_eq,
      UNoteEventPlayer.TimerFired, UNoteEventInfo.TimerFired, hdue, UNoteEventInfo.EndNote,
      MidiMessageCollector.addMessageToQueue, MidiMessage.noteOff, MidiMessage.setTimeStamp,
      div_eq_mul_inv]
  · rw [hsplit2 _ _ ([PoolEvent.tick tk, PoolEvent.timerFired 0 tf, PoolEvent.startNote ⟨1, 64, onV, offV, dur, t2⟩]), hstep2, hstep1]
    simp [runEvents, PoolEvent.apply, ScheduleNoteEndsForActiveNotes, ScheduleEndNote_eq,
      UNoteEventPlayer.TimerFired, UNoteEventInfo.TimerFired, hdue, UNoteEventInfo.EndNote,
      MidiMessageCollector.addMessageToQueue, MidiMessage.noteOff, MidiMessage.setTimeStamp,
      UNoteEventPlayer.StartNoteEvent, FindAvailableNoteIndex, findAvailableFrom,
      UNoteEventInfo.StartNote, MidiMessage.noteOn, div_eq_mul_inv]

/-- C14 with the call at 1000, the second call at 1001, the tick at 1016, the timer firing
at its deadline 1516 and the reissue at 1600. -/
theorem slot_reused_after_auto_release_witness :
    (1016 : Rat) + 500 ≤ 1516 ∧
    runEvents [PoolEvent.startNote ⟨1, 60, 1, 4 / 5, 500, 1000⟩,
        PoolEvent.startNote ⟨1, 64, 1, 4 / 5, 500, 1001⟩] (playingPool.SetNumberOfNoteSlots 1,
          quietCollector) =
      runEvents [PoolEvent.startNote ⟨1, 60, 1, 4 / 5, 500, 1000⟩]
        (playingPool.SetNumberOfNoteSlots 1, quietCollector) ∧
    runEvents [PoolEvent.startNote ⟨1, 60, 1, 4 / 5, 500, 1000⟩,
        PoolEvent.startNote ⟨1, 64, 1, 4 / 5, 500, 1001⟩, PoolEvent.tick 1016,
        PoolEvent.timerFired 0 1516, PoolEvent.startNote ⟨1, 64, 1, 4 / 5, 500, 1600⟩]
        (playingPool.SetNumberOfNoteSlots 1, quietCollector) =
      ({ NoteEvents := [{ TimerManager := true, MidiCollector := true, NoteOffHandle := none,
                          NoteLengthMs := 500, NoteOnVelocity := 1, NoteOffVelocity := 4 / 5,
                          MidiChannel := 1, MidiNote := 64, IsActive := true,
                          HasNoteOffScheduled := false }] },
       { quietCollector with
         incomingMessages := quietCollector.incomingMessages ++
           [{ kind := MidiKind.noteOn, channel := 1, noteNumber := 60, velocity := 1,
              timeStamp := 1000 / 1000 },
            { kind := MidiKind.noteOff, channel := 1, noteNumber := 60, velocity := 4 / 5,
              timeStamp := 1516 / 1000 },
            { kind := MidiKind.noteOn, channel := 1, noteNumber := 64, velocity := 1,
              timeStamp := 1600 / 1000 }] }) := by
  have hdue : (1016 : Rat) + 500 ≤ 1516 := by norm_num
  have h := slot_reused_after_auto_release playingPool quietCollector 1 (4 / 5) 500 1000 1001
    1016 1516 1600 hdue
  exact ⟨hdue, h.2.1, h.2.2.2.2⟩

/-! ### The manual note triggers -/

/-- C15. On an initialised component `TriggerNoteOn (channel, note, velocity)` and
`TriggerNoteOff (channel, note, velocity)` each put exactly one message of their kind with
the given channel, note and velocity into the collector and change nothing else: the
note player with every slot field, flag and timer stays as it is, and so does the slot
`FindAvailableNoteIndex` returns; no free slot is consumed. -/
theorem Trigger_bypasses_slot_pool (u : UUnrealSynthesiserComponent) (ch note : Int)
    (vel now : Rat) (hinit : u.Initialised = true) :
    u.TriggerNoteOn ch note vel now =
      { u with
        MidiCollector :=
          { u.MidiCollector with
            incomingMessages := u.MidiCollector.incomingMessages ++
              [{ kind := MidiKind.noteOn, channel := ch, noteNumber := note, velocity := vel,
                 timeStamp := now / 1000 }] } } ∧
    u.TriggerNoteOff ch note vel now =
      { u with
        MidiCollector :=
          { u.MidiCollector with
            incomingMessages := u.MidiCollector.incomingMessages ++
              [{ kind := MidiKind.noteOff, channel := ch, noteNumber := note, velocity := vel,
                 timeStamp := now / 1000 }] } } ∧
    (u.TriggerNoteOn ch note vel now).NotePlayer = u.NotePlayer ∧
    (u.TriggerNoteOff ch note vel now).NotePlayer = u.NotePlayer ∧
    (u.TriggerNoteOn ch note vel now).NotePlayer.FindAvailableNoteIndex =
      u.NotePlayer.FindAvailableNoteIndex ∧
    (u.TriggerNoteOff ch note vel now).NotePlayer.FindAvailableNoteIndex =
      u.NotePlayer.FindAvailableNoteIndex := by
  have hon : u.TriggerNoteOn ch note vel now =
      { u with
        MidiCollector :=
          { u.MidiCollector with
            incomingMessages := u.MidiCollector.incomingMessages ++
              [{ kind := MidiKind.noteOn, channel := ch, noteNumber := note, velocity := vel,
                 timeStamp := now / 1000 }] } } := by
    simp [UUnrealSynthesiserComponent.TriggerNoteOn, hinit,
      MidiMessageCollector.addMessageToQueue, MidiMessage.noteOn, MidiMessage.setTimeStamp,
      div_eq_mul_inv]
  have hoff : u.TriggerNoteOff ch note vel now =
      { u with
        MidiCollector :=
          { u.MidiCollector with
            incomingMessages := u.MidiCollector.incomingMessages ++
              [{ kind := MidiKind.noteOff, channel := ch, noteNumber := note, velocity := vel,
                 timeStamp := now / 1000 }] } } := by
    simp [UUnrealSynthesiserComponent.TriggerNoteOff, hinit,
      MidiMessageCollector.addMessageToQueue, MidiMessage.noteOff, MidiMessage.setTimeStamp,
      div_eq_mul_inv]
  refine ⟨hon, hoff, ?_, ?_, ?_, ?_⟩
  · rw [hon]
  · rw [hoff]
  · rw [hon]
  · rw [hoff]

/-- C15 on the prepared component: a manual NoteOn for note 60 is queued and the twenty
slots stay free. -/
theorem Trigger_bypasses_slot_pool_witness :
    (unpreparedComponent.PrepareToPlay 44100).Initialised = true ∧
    ((unpreparedComponent.PrepareToPlay 44100).TriggerNoteOn 1 60 1 1000).NotePlayer =
      (unpreparedComponent.PrepareToPlay 44100).NotePlayer ∧
    ((unpreparedComponent.PrepareToPlay 44100).TriggerNoteOff 1 60 1 1500).NotePlayer =
      (unpreparedComponent.PrepareToPlay 44100).NotePlayer :=
  ⟨rfl,
   (Trigger_bypasses_slot_pool (unpreparedComponent.PrepareToPlay 44100) 1 60 1 1000 rfl).2.2.1,
   (Trigger_bypasses_slot_pool (unpreparedComponent.PrepareToPlay 44100) 1 60 1 1500 rfl).2.2.2.1⟩

/-! ### The NoteOff of a timer matches the note -/

/-- One step keeps the record of every active slot: the note it holds is the note of the
most recent NoteOn it has emitted, with the off-velocity of the call behind that NoteOn. -/
theorem apply_last_noteOn (e : PoolEvent) (w : UNoteEventPlayer × MidiMessageCollector)
    (log : List Emission)
    (h : ∀ s ∈ w.1.NoteEvents,
      (s.HasNoteOffScheduled = true → s.IsActive = true) ∧
      (s.NoteOffHandle ≠ none → s.HasNoteOffScheduled = true) ∧
      (s.IsActive = true → s.MidiCollector = true))
    (hrec : ∀ (i : Nat) (s : UNoteEventInfo), w.1.NoteEvents[i]? = some s → s.IsActive = true →
      ∃ k : NoteCall,
        lastNoteOn i log = some { slot := i, message := k.noteOnMessage, call := some k } ∧
        s.MidiChannel = k.midiChannel ∧ s.MidiNote = k.midiNoteNumber ∧
        s.NoteOffVelocity = k.offVelocity) :
    ∀ (i : Nat) (s : UNoteEventInfo), (e.apply w).1.NoteEvents[i]? = some s → s.IsActive = true →
      ∃ k : NoteCall,
        lastNoteOn i (log ++ e.emissions w) =
          some { slot := i, message := k.noteOnMessage, call := some k } ∧
        s.MidiChannel = k.midiChannel ∧ s.MidiNote = k.midiNoteNumber ∧
        s.NoteOffVelocity = k.offVelocity := by
  rcases apply_emissions_cases e w h with ⟨f, hf, heq, hem⟩ |
    ⟨k, idx, s0, s1, _, hget, hina, hact1, hch, hnote, hoff, heq, hem⟩ |
    ⟨j, now, s0, s1, _, hget, hact, hina1, heq, hem⟩
  · intro i s hs hact
    rw [heq] at hs
    simp only [List.getElem?_map] at hs
    cases hg : w.1.NoteEvents[i]? with
    | none => rw [hg] at hs; cases hs
    | some t =>
      rw [hg] at hs
      simp only [Option.map_some', Option.some.injEq] at hs
      subst hs
      obtain ⟨hfa, hfc, hfn, hfo⟩ := hf t
      rw [hfa] at hact
      obtain ⟨k, hk1, hk2, hk3, hk4⟩ := hrec i t hg hact
      exact ⟨k, by rw [hem, List.append_nil]; exact hk1, by rw [hfc]; exact hk2,
        by rw [hfn]; exact hk3, by rw [hfo]; exact hk4⟩
  · intro i s hs hact
    rw [heq] at hs
    have hidx := lt_length_of_getElem? _ _ _ hget
    by_cases hi : idx = i
    · subst hi
      simp only [List.getElem?_set_self hidx, Option.some.injEq] at hs
      subst hs
      refine ⟨k, ?_, hch, hnote, hoff⟩
      rw [hem]
      simp [lastNoteOn, List.filter_append, NoteCall.noteOnMessage]
    · simp only [List.getElem?_set_ne hi] at hs
      obtain ⟨k2, hk1, hk2, hk3, hk4⟩ := hrec i s hs hact
      refine ⟨k2, ?_, hk2, hk3, hk4⟩
      rw [hem, ← hk1]
      simp [lastNoteOn, List.filter_append, hi]
  · intro i s hs hact2
    rw [heq] at hs
    have hj := lt_length_of_getElem? _ _ _ hget
    by_cases hi : j = i
    · subst hi
      simp only [List.getElem?_set_self hj, Option.some.injEq] at hs
      subst hs
      rw [hina1] at hact2
      cases hact2
    · simp only [List.getElem?_set_ne hi] at hs
      obtain ⟨k2, hk1, hk2, hk3, hk4⟩ := hrec i s hs hact2
      refine ⟨k2, ?_, hk2, hk3, hk4⟩
      rw [hem, ← hk1]
      simp [lastNoteOn, List.filter_append]

/-- Along every run that starts with every slot inactive, each active slot holds the note
of the most recent NoteOn it has emitted. -/
theorem runEvents_last_noteOn (es : List PoolEvent) (w0 : UNoteEventPlayer × MidiMessageCollector)
    (hinv : ∀ s ∈ w0.1.NoteEvents,
      (s.HasNoteOffScheduled = true → s.IsActive = true) ∧
      (s.NoteOffHandle ≠ none → s.HasNoteOffScheduled = true) ∧
      (s.IsActive = true → s.MidiCollector = true))
    (hidle : ∀ s ∈ w0.1.NoteEvents, s.IsActive = false) :
    ∀ (i : Nat) (s : UNoteEventInfo), (runEvents es w0).1.NoteEvents[i]? = some s →
      s.IsActive = true →
      ∃ k : NoteCall,
        lastNoteOn i (emissionLog es w0) =
          some { slot := i, message := k.noteOnMessage, call := some k } ∧
        s.MidiChannel = k.midiChannel ∧ s.MidiNote = k.midiNoteNumber ∧
        s.NoteOffVelocity = k.offVelocity := by
  induction es using List.reverseRecOn with
  | nil =>
    intro i s hs hact
    have := hidle s (List.getElem?_mem hs)
    rw [this] at hact
    cases hact
  | append_singleton xs e ih =>
    have hprev := runEvents_slot_invariant xs w0 hinv
    have hrun : runEvents (xs ++ [e]) w0 = e.apply (runEvents xs w0) := by
      rw [runEvents_append]; rfl
    have hlog : emissionLog (xs ++ [e]) w0 =
        emissionLog xs w0 ++ e.emissions (runEvents xs w0) := by
      rw [emissionLog_append]; simp [emissionLog]
    rw [hrun, hlog]
    exact apply_last_noteOn e _ _ hprev ih

/-- Along every run that starts with every slot inactive, a NoteOff emitted by the firing
of the timer of slot `i` is the NoteOff of the call behind the most recent NoteOn of that
slot. -/
theorem timerFired_emitted_of_run (es : List PoolEvent)
    (w0 : UNoteEventPlayer × MidiMessageCollector)
    (hinv0 : ∀ s ∈ w0.1.NoteEvents,
      (s.HasNoteOffScheduled = true → s.IsActive = true) ∧
      (s.NoteOffHandle ≠ none → s.HasNoteOffScheduled = true) ∧
      (s.IsActive = true → s.MidiCollector = true))
    (hidle : ∀ s ∈ w0.1.NoteEvents, s.IsActive = false)
    (i : Nat) (now : Rat) (m : MidiMessage)
    (hm : m ∈ (PoolEvent.timerFired i now).emitted (runEvents es w0)) :
    ∃ k : NoteCall,
      lastNoteOn i (emissionLog es w0) =
        some { slot := i, message := k.noteOnMessage, call := some k } ∧
      m = { kind := MidiKind.noteOff, channel := k.midiChannel, noteNumber := k.midiNoteNumber,
            velocity := k.offVelocity, timeStamp := now / 1000 } := by
  have hinv := runEvents_slot_invariant es _ hinv0
  have hrec := runEvents_last_noteOn es _ hinv0 hidle
  generalize runEvents es w0 = w at hm hinv hrec
  have hmap : ((PoolEvent.timerFired i now).emissions w).map Emission.message =
      (PoolEvent.timerFired i now).emitted w := by
    simp only [PoolEvent.emissions, List.map_map]
    exact List.map_id _
  rcases apply_emissions_cases (PoolEvent.timerFired i now) w hinv with ⟨f, hf, heq, hem⟩ |
    ⟨k, idx, s0, s1, he, _⟩ | ⟨j, now2, s0, s1, he, hget, hact, _, _, hem⟩
  · rw [hem] at hmap
    rw [← hmap] at hm
    cases hm
  · cases he
  · cases he
    rw [hem] at hmap
    rw [← hmap] at hm
    simp only [List.map_cons, List.map_nil, List.mem_singleton] at hm
    obtain ⟨k, hk1, hk2, hk3, hk4⟩ := hrec i s0 hget hact
    refine ⟨k, hk1, ?_⟩
    rw [hm, hk2, hk3, hk4]

/-- The slots of a freshly allocated pool are inactive. -/
theorem fresh_slots_inactive (p0 : UNoteEventPlayer) (n : Int) (c0 : MidiMessageCollector) :
    ∀ t ∈ (p0.SetNumberOfNoteSlots n, c0).1.NoteEvents, t.IsActive = false := by
  intro t ht
  rw [SetNumberOfNoteSlots_eq] at ht
  rw [List.eq_of_mem_replicate ht]

/-- C19. In every state reached from a freshly allocated pool by `StartNoteEvent` calls,
ticks and timer firings, every NoteOff that the firing of the timer of slot `i` emits
carries the channel and the note number of the most recent NoteOn the same slot has
emitted and the off-velocity passed to the `StartNoteEvent` call behind that NoteOn; so
it never carries the reset values of the slot. -/
theorem timer_noteOff_matches_last_noteOn (p0 : UNoteEventPlayer) (n : Int)
    (c0 : MidiMessageCollector) (es : List PoolEvent) (i : Nat) (now : Rat) (m : MidiMessage)
    (hm : m ∈ (PoolEvent.timerFired i now).emitted (runEvents es (p0.SetNumberOfNoteSlots n, c0))) :
    ∃ k : NoteCall,
      lastNoteOn i (emissionLog es (p0.SetNumberOfNoteSlots n, c0)) =
        some { slot := i, message := k.noteOnMessage, call := some k } ∧
      k.noteOnMessage.channel = k.midiChannel ∧ k.noteOnMessage.noteNumber = k.midiNoteNumber ∧
      m = { kind := MidiKind.noteOff, channel := k.midiChannel, noteNumber := k.midiNoteNumber,
            velocity := k.offVelocity, timeStamp := now / 1000 } := by
  obtain ⟨k, hk1, hk2⟩ := timerFired_emitted_of_run es _ (fresh_slot_invariant p0 n c0)
    (fresh_slots_inactive p0 n c0) i now m hm
  exact ⟨k, hk1, rfl, rfl, hk2⟩

/-- C19 on the one-slot pool: after note 60 is called and scheduled, the firing at 1516
emits the NoteOff of note 60 on channel 1 with the off-velocity of the call. -/
theorem timer_noteOff_matches_last_noteOn_witness :
    noteOff60 ∈
      (PoolEvent.timerFired 0 1516).emitted
        (runEvents [PoolEvent.startNote call60, PoolEvent.tick 1016]
          (({} : UNoteEventPlayer).SetNumberOfNoteSlots 1, quietCollector)) ∧
    ∃ k : NoteCall,
      lastNoteOn 0 (emissionLog [PoolEvent.startNote call60, PoolEvent.tick 1016]
          (({} : UNoteEventPlayer).SetNumberOfNoteSlots 1, quietCollector)) =
        some { slot := 0, message := k.noteOnMessage, call := some k } ∧
      noteOff60 =
        { kind := MidiKind.noteOff, channel := k.midiChannel, noteNumber := k.midiNoteNumber,
          velocity := k.offVelocity, timeStamp := 1516 / 1000 } := by
  have hm : noteOff60 ∈
      (PoolEvent.timerFired 0 1516).emitted
        (runEvents [PoolEvent.startNote call60, PoolEvent.tick 1016]
          (({} : UNoteEventPlayer).SetNumberOfNoteSlots 1, quietCollector)) := by
    rw [run_call60_tick]
    simp [PoolEvent.emitted, PoolEvent.apply, UNoteEventPlayer.TimerFired,
      UNoteEventInfo.TimerFired, UNoteEventInfo.EndNote, soundingSlot, quietCollector,
      MidiMessageCollector.addMessageToQueue, MidiMessage.noteOff, MidiMessage.setTimeStamp,
      noteOff60, div_eq_mul_inv]
  obtain ⟨k, hk1, _, _, hk4⟩ := timer_noteOff_matches_last_noteOn {} 1 quietCollector
    [PoolEvent.startNote call60, PoolEvent.tick 1016] 0 1516 noteOff60 hm
  exact ⟨hm, k, hk1, hk4⟩

/-! ### `SetNumberOfNoteSlots` and the notes it drops -/

/-- C20. The method `SetNumberOfNoteSlots` emits no MIDI message and silences the notes it
drops. The call has no access to a collector: at its one call site, `InitializeComponent`,
the component's collector is the same before and after, whatever notes are active. The
dropped slots leave with their timers cancelled (a slot with a pending timer has its
`TimerManager` set), so no later firing does anything for them, and the new slots are
inactive with no timer. In every run that follows, the collector only gains the log of
the run, and a NoteOff that a timer firing emits belongs to a NoteOn emitted by the same
slot after the call: none is ever emitted for a note that was active at the call. -/
theorem SetNumberOfNoteSlots_emits_nothing (p : UNoteEventPlayer) (n : Int)
    (c : MidiMessageCollector)
    (hmanager : ∀ s ∈ p.NoteEvents, s.NoteOffHandle ≠ none → s.TimerManager = true) :
    (∀ u : UUnrealSynthesiserComponent, u.InitializeComponent.MidiCollector = u.MidiCollector) ∧
    (∀ s ∈ p.discardedSlots, ∀ (c2 : MidiMessageCollector) (now : Rat),
      s.TimerFired c2 now = (s, c2)) ∧
    (∀ s ∈ (p.SetNumberOfNoteSlots n).NoteEvents, s.IsActive = false ∧ s.NoteOffHandle = none) ∧
    (∀ es : List PoolEvent,
      (runEvents es (p.SetNumberOfNoteSlots n, c)).2.incomingMessages =
        c.incomingMessages ++ (emissionLog es (p.SetNumberOfNoteSlots n, c)).map Emission.message) ∧
    (∀ (es : List PoolEvent) (i : Nat) (now : Rat) (m : MidiMessage),
      m ∈ (PoolEvent.timerFired i now).emitted (runEvents es (p.SetNumberOfNoteSlots n, c)) →
      ∃ k : NoteCall,
        lastNoteOn i (emissionLog es (p.SetNumberOfNoteSlots n, c)) =
          some { slot := i, message := k.noteOnMessage, call := some k } ∧
        m = { kind := MidiKind.noteOff, channel := k.midiChannel,
              noteNumber := k.midiNoteNumber, velocity := k.offVelocity,
              timeStamp := now / 1000 }) := by
  refine ⟨fun _ => rfl, ?_, ?_, ?_, ?_⟩
  · intro s hs c2 now
    simp only [discardedSlots, ClearNoteOffTimers, List.mem_map] at hs
    obtain ⟨t, ht, rfl⟩ := hs
    have hnone : t.ClearTimer.NoteOffHandle = none := by
      by_cases hm : t.TimerManager = true
      · simp [UNoteEventInfo.ClearTimer, hm, FTimerManager.ClearTimer]
      · have hm2 : t.TimerManager = false := by simpa using hm
        simp only [UNoteEventInfo.ClearTimer, hm2]
        by_contra hcon
        exact hm (hmanager t ht hcon)
    simp [UNoteEventInfo.TimerFired, hnone]
  · intro s hs
    rw [SetNumberOfNoteSlots_eq] at hs
    rw [List.eq_of_mem_replicate hs]
    exact ⟨rfl, rfl⟩
  · intro es
    exact (runEvents_balance es _ (fresh_slot_invariant p n c) (fresh_slots_inactive p n c)).1
  · intro es i now m hm
    exact timerFired_emitted_of_run es _ (fresh_slot_invariant p n c)
      (fresh_slots_inactive p n c) i now m hm

/-- C20 at a pool with two notes sounding, one of them with its timer pending: after the
call no firing does anything for the dropped slots. -/
theorem SetNumberOfNoteSlots_emits_nothing_witness :
    (∀ s ∈ playingPool.NoteEvents, s.NoteOffHandle ≠ none → s.TimerManager = true) ∧
    (∀ s ∈ playingPool.discardedSlots, ∀ (c2 : MidiMessageCollector) (now : Rat),
      s.TimerFired c2 now = (s, c2)) := by
  have hmanager : ∀ s ∈ playingPool.NoteEvents, s.NoteOffHandle ≠ none → s.TimerManager = true := by
    intro s hs hp
    simp [playingPool] at hs
    rcases hs with rfl | rfl
    · rfl
    · exact absurd rfl hp
  exact ⟨hmanager,
    (SetNumberOfNoteSlots_emits_nothing playingPool 20 quietCollector hmanager).2.1⟩

/-! ### Rendering a block -/

/-- Adding nothing at a sample leaves the channel as it is. -/
theorem set_getD_add_zero (channel : List Rat) (i : Nat) :
    channel.set i (channel.getD i 0 + 0) = channel := by
  rw [add_zero]
  apply List.ext_getElem?
  intro j
  by_cases hij : i = j
  · subst hij
    by_cases hlt : i < channel.length
    · rw [List.getElem?_set_self hlt, List.getD_eq_getElem?_getD, List.getElem?_eq_getElem hlt]
      rfl
    · rw [List.set_eq_of_length_le (by omega)]
  · rw [List.getElem?_set_ne hij]

/-- With no event and every voice idle the sample loop leaves synthesiser and buffer as
they are. -/
theorem renderSamples_idle (oscillator : WaveType → Rat → Rat) (frequency : Int → Rat)
    (k j : Nat) (y : Synthesiser) (buffer : List (List Rat)) (startSample : Nat)
    (hidle : ∀ v ∈ y.voices, v.Stage = AdsrStage.Idle) :
    Synthesiser.renderSamples oscillator frequency k j y buffer [] startSample = (y, buffer) := by
  induction k generalizing j with
  | zero => rfl
  | succ k ih =>
    have hout : (y.voices.map fun v => v.currentSample oscillator).sum = 0 := by
      apply List.sum_eq_zero
      intro x hx
      obtain ⟨v, hv, rfl⟩ := List.mem_map.mp hx
      simp [UnrealWaveVoice.currentSample, hidle v hv]
    have hvoices : (y.voices.map fun v => v.advanceSample frequency y.sampleRate) = y.voices := by
      calc (y.voices.map fun v => v.advanceSample frequency y.sampleRate)
          = y.voices.map id :=
            List.map_congr_left fun v hv => by simp [UnrealWaveVoice.advanceSample, hidle v hv]
        _ = y.voices := List.map_id _
    have hbuf : (buffer.map fun channel =>
        channel.set (startSample + j) (channel.getD (startSample + j) 0 + 0)) = buffer := by
      calc (buffer.map fun channel =>
              channel.set (startSample + j) (channel.getD (startSample + j) 0 + 0))
          = buffer.map id := List.map_congr_left fun ch _ => set_getD_add_zero ch _
        _ = buffer := List.map_id _
    simp only [Synthesiser.renderSamples, List.filter_nil, List.foldl_nil, hout, hvoices, hbuf]
    exact ih (j + 1)

/-- The cleared region of a channel that contains it holds zeros only. -/
theorem cleared_region (channel : List Rat) (startSample numSamples : Nat)
    (hfit : startSample + numSamples ≤ channel.length) :
    ((channel.take startSample ++
        List.replicate (min numSamples (channel.length - startSample)) 0 ++
        channel.drop (startSample + numSamples)).drop startSample).take numSamples =
      List.replicate numSamples 0 := by
  have hmin : min numSamples (channel.length - startSample) = numSamples := by omega
  have hlen : (channel.take startSample).length = startSample := by
    rw [List.length_take]; omega
  rw [hmin, List.append_assoc, List.drop_append_of_le_length (by omega),
    List.drop_eq_nil_of_le (by omega), List.nil_append,
    List.take_append_of_le_length (by simp)]
  simp

/-- C16. For every `numSamples` and every prior buffer content, `GetNextAudioBlock` with
no queued event and every voice idle returns the buffer that `clearActiveBufferRegion`
leaves: the active region is cleared first and the synthesiser, which only adds to the
buffer, adds nothing. So the region (when the buffer contains it) holds exactly
`numSamples` zeros whatever it held before, and the samples outside the region, the
queue and the voices are as they were. The collector's drain and the synthesiser's
render are the ones modelled from the spec. -/
theorem GetNextAudioBlock_silence (oscillator : WaveType → Rat → Rat) (frequency : Int → Rat)
    (blockStartTime : Rat) (u : UUnrealSynthesiserComponent) (b : AudioSourceChannelInfo)
    (hqueue : u.MidiCollector.incomingMessages = [])
    (hidle : ∀ v ∈ u.Synth.voices, v.Stage = AdsrStage.Idle) :
    (u.GetNextAudioBlock (MidiMessageCollector.removeNextBlockOfMessages blockStartTime)
        (Synthesiser.renderNextBlock oscillator frequency) b).2 = b.clearActiveBufferRegion ∧
    (u.GetNextAudioBlock (MidiMessageCollector.removeNextBlockOfMessages blockStartTime)
        (Synthesiser.renderNextBlock oscillator frequency) b).1 = u ∧
    (∀ (i : Nat) (channel : List Rat), b.buffer[i]? = some channel →
      b.startSample + b.numSamples ≤ channel.length →
      ∃ rendered : List Rat,
        (u.GetNextAudioBlock (MidiMessageCollector.removeNextBlockOfMessages blockStartTime)
          (Synthesiser.renderNextBlock oscillator frequency) b).2.buffer[i]? = some rendered ∧
        (rendered.drop b.startSample).take b.numSamples = List.replicate b.numSamples 0 ∧
        rendered.take b.startSample = channel.take b.startSample ∧
        rendered.drop (b.startSample + b.numSamples) =
          channel.drop (b.startSample + b.numSamples) ∧
        rendered.length = channel.length) := by
  have hremove : MidiMessageCollector.removeNextBlockOfMessages blockStartTime u.MidiCollector
      b.clearActiveBufferRegion.numSamples = ([], u.MidiCollector) := by
    cases hc : u.MidiCollector with
    | mk msgs rate =>
      rw [hc] at hqueue
      simp only at hqueue
      subst hqueue
      simp [MidiMessageCollector.removeNextBlockOfMessages]
  have hrun : u.GetNextAudioBlock (MidiMessageCollector.removeNextBlockOfMessages blockStartTime)
      (Synthesiser.renderNextBlock oscillator frequency) b = (u, b.clearActiveBufferRegion) := by
    simp only [UUnrealSynthesiserComponent.GetNextAudioBlock, hremove,
      Synthesiser.renderNextBlock]
    rw [renderSamples_idle oscillator frequency _ 0 u.Synth _ 0 hidle]
  refine ⟨by rw [hrun], by rw [hrun], ?_⟩
  intro i channel hch hfit
  rw [hrun]
  refine ⟨channel.take b.startSample ++
      List.replicate (min b.numSamples (channel.length - b.startSample)) 0 ++
      channel.drop (b.startSample + b.numSamples), ?_, cleared_region channel _ _ hfit, ?_, ?_, ?_⟩
  · simp [AudioSourceChannelInfo.clearActiveBufferRegion, hch]
  · have hlen : (channel.take b.startSample).length = b.startSample := by
      rw [List.length_take]; omega
    rw [List.append_assoc, List.take_append_of_le_length (by omega), List.take_of_length_le (by omega)]
  · have hmin : min b.numSamples (channel.length - b.startSample) = b.numSamples := by omega
    have hlen : (channel.take b.startSample ++ List.replicate b.numSamples (0 : Rat)).length =
        b.startSample + b.numSamples := by
      simp [List.length_take]; omega
    rw [hmin, List.drop_append_of_le_length (by omega), List.drop_eq_nil_of_le (by omega)]
    simp
  · simp [List.length_take]; omega

/-- C16 on the prepared component and a two-channel buffer of four samples with the
active region at samples 1 and 2. -/
theorem GetNextAudioBlock_silence_witness :
    (unpreparedComponent.PrepareToPlay 44100).MidiCollector.incomingMessages = [] ∧
    (∀ v ∈ (unpreparedComponent.PrepareToPlay 44100).Synth.voices, v.Stage = AdsrStage.Idle) ∧
    ((unpreparedComponent.PrepareToPlay 44100).GetNextAudioBlock
        (MidiMessageCollector.removeNextBlockOfMessages 0)
        (Synthesiser.renderNextBlock (fun _ phase => phase) (fun _ => 440))
        { buffer := [[1, 2, 3, 4], [5, 6, 7, 8]], startSample := 1, numSamples := 2 }).2 =
      AudioSourceChannelInfo.clearActiveBufferRegion
        { buffer := [[1, 2, 3, 4], [5, 6, 7, 8]], startSample := 1, numSamples := 2 } ∧
    (AudioSourceChannelInfo.clearActiveBufferRegion
        { buffer := [[1, 2, 3, 4], [5, 6, 7, 8]], startSample := 1, numSamples := 2 }).buffer =
      [[1, 0, 0, 4], [5, 0, 0, 8]] := by
  have hidle : ∀ v ∈ (unpreparedComponent.PrepareToPlay 44100).Synth.voices,
      v.Stage = AdsrStage.Idle := by
    intro v hv
    have hv2 : v ∈ List.replicate 4 ({} : UnrealWaveVoice) := hv
    rw [List.eq_of_mem_replicate hv2]
  exact ⟨rfl, hidle,
    (GetNextAudioBlock_silence (fun _ phase => phase) (fun _ => 440) 0
      (unpreparedComponent.PrepareToPlay 44100)
      { buffer := [[1, 2, 3, 4], [5, 6, 7, 8]], startSample := 1, numSamples := 2 } rfl hidle).1,
    by simp [AudioSourceChannelInfo.clearActiveBufferRegion]⟩

/-! ### The envelope of a voice -/

/-- Rendering `m + n` samples is rendering `m` and then `n`. -/
theorem advanceSamples_add (frequency : Int → Rat) (sampleRate : Rat) (m n : Nat)
    (v : UnrealWaveVoice) :
    UnrealWaveVoice.advanceSamples frequency sampleRate (m + n) v =
      UnrealWaveVoice.advanceSamples frequency sampleRate n
        (UnrealWaveVoice.advanceSamples frequency sampleRate m v) := by
  induction m generalizing v with
  | zero => simp [UnrealWaveVoice.advanceSamples]
  | succ m ih =>
    rw [Nat.add_right_comm]
    simp only [UnrealWaveVoice.advanceSamples]
    exact ih _

/-- The phase step changes the phase only. -/
theorem advancePhase_eq (v : UnrealWaveVoice) (frequency : Int → Rat) (sampleRate : Rat) :
    ∃ phase : Rat, v.advancePhase frequency sampleRate = { v with Phase := phase } := by
  unfold UnrealWaveVoice.advancePhase
  split
  · exact ⟨_, rfl⟩
  · exact ⟨v.Phase, rfl⟩

/-- One sample of a voice in Attack: it reaches Decay at level 1 once the attack time is
up, and stays in Attack with more time on its clock otherwise. -/
theorem advanceSample_attack (v : UnrealWaveVoice) (frequency : Int → Rat) (sampleRate : Rat)
    (hstage : v.Stage = AdsrStage.Attack) :
    UnrealWaveVoice.sameNoteAndSettings v (v.advanceSample frequency sampleRate) ∧
    ((v.AttackRateSeconds ≤ v.StageSeconds + 1 / sampleRate ∧
        (v.advanceSample frequency sampleRate).Stage = AdsrStage.Decay ∧
        (v.advanceSample frequency sampleRate).EnvelopeLevel = 1 ∧
        (v.advanceSample frequency sampleRate).StageSeconds = 0) ∨
     (¬ v.AttackRateSeconds ≤ v.StageSeconds + 1 / sampleRate ∧
        (v.advanceSample frequency sampleRate).Stage = AdsrStage.Attack ∧
        (v.advanceSample frequency sampleRate).StageSeconds =
          v.StageSeconds + 1 / sampleRate)) := by
  obtain ⟨phase, hphase⟩ := advancePhase_eq v frequency sampleRate
  by_cases hdone : v.AttackRateSeconds ≤ v.StageSeconds + 1 / sampleRate
  · have hdone2 := hdone
    simp only [one_div] at hdone2
    have : v.advanceSample frequency sampleRate =
        { v with Phase := phase, Stage := AdsrStage.Decay, EnvelopeLevel := 1, StageSeconds := 0 } := by
      simp [UnrealWaveVoice.advanceSample, hstage, hphase, UnrealWaveVoice.advanceEnvelope, hdone2]
    rw [this]
    exact ⟨⟨rfl, rfl, rfl, rfl, rfl, rfl, rfl⟩, Or.inl ⟨hdone, rfl, rfl, rfl⟩⟩
  · have hdone2 := hdone
    simp only [one_div] at hdone2
    have : v.advanceSample frequency sampleRate =
        { v with
          Phase := phase,
          EnvelopeLevel := (v.StageSeconds + 1 / sampleRate) / v.AttackRateSeconds,
          StageSeconds := v.StageSeconds + 1 / sampleRate } := by
      simp [UnrealWaveVoice.advanceSample, hstage, hphase, UnrealWaveVoice.advanceEnvelope, hdone2]
    rw [this]
    exact ⟨⟨rfl, rfl, rfl, rfl, rfl, rfl, rfl⟩, Or.inr ⟨hdone, hstage, rfl⟩⟩

/-- One sample of a voice in Decay: it reaches Sustain at the sustain level once the decay
time is up, and stays in Decay with more time on its clock otherwise. -/
theorem advanceSample_decay (v : UnrealWaveVoice) (frequency : Int → Rat) (sampleRate : Rat)
    (hstage : v.Stage = AdsrStage.Decay) :
    UnrealWaveVoice.sameNoteAndSettings v (v.advanceSample frequency sampleRate) ∧
    ((v.DecayRateSeconds ≤ v.StageSeconds + 1 / sampleRate ∧
        (v.advanceSample frequency sampleRate).Stage = AdsrStage.Sustain ∧
        (v.advanceSample frequency sampleRate).EnvelopeLevel = v.SustainLevel) ∨
     (¬ v.DecayRateSeconds ≤ v.StageSeconds + 1 / sampleRate ∧
        (v.advanceSample frequency sampleRate).Stage = AdsrStage.Decay ∧
        (v.advanceSample frequency sampleRate).StageSeconds =
          v.StageSeconds + 1 / sampleRate)) := by
  obtain ⟨phase, hphase⟩ := advancePhase_eq v frequency sampleRate
  by_cases hdone : v.DecayRateSeconds ≤ v.StageSeconds + 1 / sampleRate
  · have hdone2 := hdone
    simp only [one_div] at hdone2
    have : v.advanceSample frequency sampleRate =
        { v with
          Phase := phase, Stage := AdsrStage.Sustain, EnvelopeLevel := v.SustainLevel,
          StageSeconds := 0 } := by
      simp [UnrealWaveVoice.advanceSample, hstage, hphase, UnrealWaveVoice.advanceEnvelope, hdone2]
    rw [this]
    exact ⟨⟨rfl, rfl, rfl, rfl, rfl, rfl, rfl⟩, Or.inl ⟨hdone, rfl, rfl⟩⟩
  · have hdone2 := hdone
    simp only [one_div] at hdone2
    have : v.advanceSample frequency sampleRate =
        { v with
          Phase := phase,
          EnvelopeLevel :=
            1 + (v.SustainLevel - 1) * ((v.StageSeconds + 1 / sampleRate) / v.DecayRateSeconds),
          StageSeconds := v.StageSeconds + 1 / sampleRate } := by
      simp [UnrealWaveVoice.advanceSample, hstage, hphase, UnrealWaveVoice.advanceEnvelope, hdone2]
    rw [this]
    exact ⟨⟨rfl, rfl, rfl, rfl, rfl, rfl, rfl⟩, Or.inr ⟨hdone, hstage, rfl⟩⟩

/-- One sample of a voice in Release: it becomes idle at level 0 with no note once the
release time is up, and stays in Release with more time on its clock otherwise. -/
theorem advanceSample_release (v : UnrealWaveVoice) (frequency : Int → Rat) (sampleRate : Rat)
    (hstage : v.Stage = AdsrStage.Release) :
    ((v.ReleaseRateSeconds ≤ v.StageSeconds + 1 / sampleRate ∧
        (v.advanceSample frequency sampleRate).Stage = AdsrStage.Idle ∧
        (v.advanceSample frequency sampleRate).EnvelopeLevel = 0 ∧
        (v.advanceSample frequency sampleRate).Note = none) ∨
     (¬ v.ReleaseRateSeconds ≤ v.StageSeconds + 1 / sampleRate ∧
        (v.advanceSample frequency sampleRate).Stage = AdsrStage.Release ∧
        (v.advanceSample frequency sampleRate).ReleaseRateSeconds = v.ReleaseRateSeconds ∧
        (v.advanceSample frequency sampleRate).StageSeconds =
          v.StageSeconds + 1 / sampleRate)) := by
  obtain ⟨phase, hphase⟩ := advancePhase_eq v frequency sampleRate
  by_cases hdone : v.ReleaseRateSeconds ≤ v.StageSeconds + 1 / sampleRate
  · have hdone2 := hdone
    simp only [one_div] at hdone2
    have : v.advanceSample frequency sampleRate =
        { v with
          Phase := phase, Stage := AdsrStage.Idle, EnvelopeLevel := 0, Note := none,
          StageSeconds := 0 } := by
      simp [UnrealWaveVoice.advanceSample, hstage, hphase, UnrealWaveVoice.advanceEnvelope, hdone2]
    rw [this]
    exact Or.inl ⟨hdone, rfl, rfl, rfl⟩
  · have hdone2 := hdone
    simp only [one_div] at hdone2
    have : v.advanceSample frequency sampleRate =
        { v with
          Phase := phase,
          EnvelopeLevel :=
            v.ReleaseFrom * (1 - (v.StageSeconds + 1 / sampleRate) / v.ReleaseRateSeconds),
          StageSeconds := v.StageSeconds + 1 / sampleRate } := by
      simp [UnrealWaveVoice.advanceSample, hstage, hphase, UnrealWaveVoice.advanceEnvelope, hdone2]
    rw [this]
    exact Or.inr ⟨hdone, hstage, rfl, rfl⟩

/-- Keeping note and settings is transitive. -/
theorem sameNoteAndSettings_trans (a b c : UnrealWaveVoice)
    (hab : UnrealWaveVoice.sameNoteAndSettings a b)
    (hbc : UnrealWaveVoice.sameNoteAndSettings b c) :
    UnrealWaveVoice.sameNoteAndSettings a c := by
  obtain ⟨h1, h2, h3, h4, h5, h6, h7⟩ := hab
  obtain ⟨g1, g2, g3, g4, g5, g6, g7⟩ := hbc
  exact ⟨g1.trans h1, g2.trans h2, g3.trans h3, g4.trans h4, g5.trans h5, g6.trans h6,
    g7.trans h7⟩

/-- A time span is covered by enough samples. -/
theorem exists_samples_covering (span sampleRate : Rat) (hrate : 0 < sampleRate) :
    ∃ k : Nat, span ≤ k * (1 / sampleRate) := by
  obtain ⟨k, hk⟩ := exists_nat_ge (span * sampleRate)
  refine ⟨k, ?_⟩
  have hpos : (0 : Rat) < 1 / sampleRate := by positivity
  have := mul_le_mul_of_nonneg_right hk hpos.le
  have e : span * sampleRate * (1 / sampleRate) = span := by
    field_simp
  rw [e] at this
  exact this

/-- A voice in Attack reaches Decay at level 1 after finitely many samples. -/
theorem attack_completes (frequency : Int → Rat) (sampleRate : Rat) (hrate : 0 < sampleRate)
    (k : Nat) (v : UnrealWaveVoice) (hstage : v.Stage = AdsrStage.Attack)
    (hspan : v.AttackRateSeconds - v.StageSeconds ≤ k * (1 / sampleRate)) :
    ∃ n : Nat,
      (UnrealWaveVoice.advanceSamples frequency sampleRate n v).Stage = AdsrStage.Decay ∧
      (UnrealWaveVoice.advanceSamples frequency sampleRate n v).StageSeconds = 0 ∧
      (UnrealWaveVoice.advanceSamples frequency sampleRate n v).EnvelopeLevel = 1 ∧
      UnrealWaveVoice.sameNoteAndSettings v
        (UnrealWaveVoice.advanceSamples frequency sampleRate n v) := by
  have hpos : (0 : Rat) < 1 / sampleRate := by positivity
  induction k generalizing v with
  | zero =>
    obtain ⟨hsame, ⟨_, h1, h2, h3⟩ | ⟨hnot, _, _⟩⟩ := advanceSample_attack v frequency sampleRate hstage
    · exact ⟨1, h1, h3, h2, hsame⟩
    · exfalso
      apply hnot
      simp only [Nat.cast_zero, zero_mul] at hspan
      linarith
  | succ k ih =>
    obtain ⟨hsame, ⟨_, h1, h2, h3⟩ | ⟨hnot, h1, h2⟩⟩ := advanceSample_attack v frequency sampleRate hstage
    · exact ⟨1, h1, h3, h2, hsame⟩
    · have hspan2 : (v.advanceSample frequency sampleRate).AttackRateSeconds -
          (v.advanceSample frequency sampleRate).StageSeconds ≤ k * (1 / sampleRate) := by
        rw [hsame.2.1, h2]
        push_cast at hspan
        linarith
      obtain ⟨n, g1, g2, g3, g4⟩ := ih (v.advanceSample frequency sampleRate) h1 hspan2
      exact ⟨n + 1, g1, g2, g3, sameNoteAndSettings_trans _ _ _ hsame g4⟩

/-- A voice in Decay reaches Sustain at the sustain level after finitely many samples. -/
theorem decay_completes (frequency : Int → Rat) (sampleRate : Rat) (hrate : 0 < sampleRate)
    (k : Nat) (v : UnrealWaveVoice) (hstage : v.Stage = AdsrStage.Decay)
    (hspan : v.DecayRateSeconds - v.StageSeconds ≤ k * (1 / sampleRate)) :
    ∃ n : Nat,
      (UnrealWaveVoice.advanceSamples frequency sampleRate n v).Stage = AdsrStage.Sustain ∧
      (UnrealWaveVoice.advanceSamples frequency sampleRate n v).EnvelopeLevel = v.SustainLevel ∧
      UnrealWaveVoice.sameNoteAndSettings v
        (UnrealWaveVoice.advanceSamples frequency sampleRate n v) := by
  have hpos : (0 : Rat) < 1 / sampleRate := by positivity
  induction k generalizing v with
  | zero =>
    obtain ⟨hsame, ⟨_, h1, h2⟩ | ⟨hnot, _, _⟩⟩ := advanceSample_decay v frequency sampleRate hstage
    · exact ⟨1, h1, h2, hsame⟩
    · exfalso
      apply hnot
      simp only [Nat.cast_zero, zero_mul] at hspan
      linarith
  | succ k ih =>
    obtain ⟨hsame, ⟨_, h1, h2⟩ | ⟨hnot, h1, h2⟩⟩ := advanceSample_decay v frequency sampleRate hstage
    · exact ⟨1, h1, h2, hsame⟩
    · have hspan2 : (v.advanceSample frequency sampleRate).DecayRateSeconds -
          (v.advanceSample frequency sampleRate).StageSeconds ≤ k * (1 / sampleRate) := by
        rw [hsame.2.2.1, h2]
        push_cast at hspan
        linarith
      obtain ⟨n, g1, g2, g3⟩ := ih (v.advanceSample frequency sampleRate) h1 hspan2
      exact ⟨n + 1, g1, g2.trans hsame.2.2.2.2.1, sameNoteAndSettings_trans _ _ _ hsame g3⟩

/-- A voice in Release becomes idle at level 0 with no note after finitely many samples. -/
theorem release_completes (frequency : Int → Rat) (sampleRate : Rat) (hrate : 0 < sampleRate)
    (k : Nat) (v : UnrealWaveVoice) (hstage : v.Stage = AdsrStage.Release)
    (hspan : v.ReleaseRateSeconds - v.StageSeconds ≤ k * (1 / sampleRate)) :
    ∃ n : Nat,
      (UnrealWaveVoice.advanceSamples frequency sampleRate n v).Stage = AdsrStage.Idle ∧
      (UnrealWaveVoice.advanceSamples frequency sampleRate n v).EnvelopeLevel = 0 ∧
      (UnrealWaveVoice.advanceSamples frequency sampleRate n v).Note = none := by
  have hpos : (0 : Rat) < 1 / sampleRate := by positivity
  induction k generalizing v with
  | zero =>
    obtain ⟨_, h1, h2, h3⟩ | ⟨hnot, _, _, _⟩ := advanceSample_release v frequency sampleRate hstage
    · exact ⟨1, h1, h2, h3⟩
    · exfalso
      apply hnot
      simp only [Nat.cast_zero, zero_mul] at hspan
      linarith
  | succ k ih =>
    obtain ⟨_, h1, h2, h3⟩ | ⟨hnot, h1, h2, h3⟩ := advanceSample_release v frequency sampleRate hstage
    · exact ⟨1, h1, h2, h3⟩
    · have hspan2 : (v.advanceSample frequency sampleRate).ReleaseRateSeconds -
          (v.advanceSample frequency sampleRate).StageSeconds ≤ k * (1 / sampleRate) := by
        rw [h2, h3]
        push_cast at hspan
        linarith
      obtain ⟨n, g1, g2, g3⟩ := ih (v.advanceSample frequency sampleRate) h1 hspan2
      exact ⟨n + 1, g1, g2, g3⟩

/-- A voice in Sustain holds: stage, level, note and settings stay while it is rendered. -/
theorem sustain_holds (frequency : Int → Rat) (sampleRate : Rat) (n : Nat)
    (v : UnrealWaveVoice) (hstage : v.Stage = AdsrStage.Sustain) :
    (UnrealWaveVoice.advanceSamples frequency sampleRate n v).Stage = AdsrStage.Sustain ∧
    (UnrealWaveVoice.advanceSamples frequency sampleRate n v).EnvelopeLevel = v.EnvelopeLevel ∧
    UnrealWaveVoice.sameNoteAndSettings v
      (UnrealWaveVoice.advanceSamples frequency sampleRate n v) := by
  induction n generalizing v with
  | zero => exact ⟨hstage, rfl, rfl, rfl, rfl, rfl, rfl, rfl, rfl⟩
  | succ n ih =>
    obtain ⟨phase, hphase⟩ := advancePhase_eq v frequency sampleRate
    have hstep : v.advanceSample frequency sampleRate = { v with Phase := phase } := by
      simp [UnrealWaveVoice.advanceSample, hstage, hphase, UnrealWaveVoice.advanceEnvelope]
    simp only [UnrealWaveVoice.advanceSamples, hstep]
    exact ih { v with Phase := phase } hstage

/-- An idle voice stays as it is while it is rendered. -/
theorem idle_holds (frequency : Int → Rat) (sampleRate : Rat) (n : Nat)
    (v : UnrealWaveVoice) (hstage : v.Stage = AdsrStage.Idle) :
    UnrealWaveVoice.advanceSamples frequency sampleRate n v = v := by
  induction n with
  | zero => rfl
  | succ n ih =>
    simp only [UnrealWaveVoice.advanceSamples, UnrealWaveVoice.advanceSample, hstage, if_true]
    exact ih

/-- C17. For every voice, every setting of the ADSR parameters and every positive sample
rate, in the voice modelled from the spec: after a NoteOn the voice, rendered sample by
sample, completes attack and decay after finitely many samples and then holds in
Sustain at the sustain level with its note; a matching NoteOff at any later sample moves
it to Release, and after finitely many more samples the release is complete: from then on
the voice is in stage Idle with envelope level exactly 0 and no assigned note, free for
reassignment. -/
theorem voice_returns_to_idle (v : UnrealWaveVoice) (frequency : Int → Rat) (sampleRate : Rat)
    (channel note : Int) (hrate : 0 < sampleRate) :
    ∃ n1 : Nat,
      (∀ m : Nat,
        (UnrealWaveVoice.advanceSamples frequency sampleRate (n1 + m)
            (v.startNote channel note)).Stage = AdsrStage.Sustain ∧
        (UnrealWaveVoice.advanceSamples frequency sampleRate (n1 + m)
            (v.startNote channel note)).EnvelopeLevel = v.SustainLevel ∧
        (UnrealWaveVoice.advanceSamples frequency sampleRate (n1 + m)
            (v.startNote channel note)).Note = some note) ∧
      (∀ m : Nat,
        ((UnrealWaveVoice.advanceSamples frequency sampleRate (n1 + m)
            (v.startNote channel note)).noteOff channel note).Stage = AdsrStage.Release ∧
        ∃ n2 : Nat, ∀ r : Nat,
          (UnrealWaveVoice.advanceSamples frequency sampleRate (n2 + r)
            ((UnrealWaveVoice.advanceSamples frequency sampleRate (n1 + m)
              (v.startNote channel note)).noteOff channel note)).Stage = AdsrStage.Idle ∧
          (UnrealWaveVoice.advanceSamples frequency sampleRate (n2 + r)
            ((UnrealWaveVoice.advanceSamples frequency sampleRate (n1 + m)
              (v.startNote channel note)).noteOff channel note)).EnvelopeLevel = 0 ∧
          (UnrealWaveVoice.advanceSamples frequency sampleRate (n2 + r)
            ((UnrealWaveVoice.advanceSamples frequency sampleRate (n1 + m)
              (v.startNote channel note)).noteOff channel note)).Note = none ∧
          (UnrealWaveVoice.advanceSamples frequency sampleRate (n2 + r)
            ((UnrealWaveVoice.advanceSamples frequency sampleRate (n1 + m)
              (v.startNote channel note)).noteOff channel note)).isFree = true) := by
  -- attack
  obtain ⟨ka, hka⟩ := exists_samples_covering
    ((v.startNote channel note).AttackRateSeconds - (v.startNote channel note).StageSeconds)
    sampleRate hrate
  obtain ⟨na, ha1, ha2, _, ha4⟩ :=
    attack_completes frequency sampleRate hrate ka (v.startNote channel note) rfl hka
  generalize hva : UnrealWaveVoice.advanceSamples frequency sampleRate na
    (v.startNote channel note) = va at ha1 ha2 ha4
  -- decay
  obtain ⟨kd, hkd⟩ := exists_samples_covering (va.DecayRateSeconds - va.StageSeconds)
    sampleRate hrate
  obtain ⟨nd, hd1, hd2, hd3⟩ := decay_completes frequency sampleRate hrate kd va ha1 hkd
  generalize hvd : UnrealWaveVoice.advanceSamples frequency sampleRate nd va = vd at hd1 hd2 hd3
  have hreach : ∀ m : Nat, UnrealWaveVoice.advanceSamples frequency sampleRate (na + nd + m)
      (v.startNote channel note) = UnrealWaveVoice.advanceSamples frequency sampleRate m vd := by
    intro m
    rw [advanceSamples_add, advanceSamples_add, hva, hvd]
  have hsame : UnrealWaveVoice.sameNoteAndSettings (v.startNote channel note) vd :=
    sameNoteAndSettings_trans _ _ _ ha4 hd3
  refine ⟨na + nd, ?_, ?_⟩
  · intro m
    rw [hreach m]
    obtain ⟨hs1, hs2, hs3⟩ := sustain_holds frequency sampleRate m vd hd1
    refine ⟨hs1, ?_, ?_⟩
    · rw [hs2, hd2, ha4.2.2.2.2.1]
      rfl
    · rw [hs3.2.2.2.2.2.1, hsame.2.2.2.2.2.1]
      rfl
  · intro m
    rw [hreach m]
    obtain ⟨hs1, _, hs3⟩ := sustain_holds frequency sampleRate m vd hd1
    generalize UnrealWaveVoice.advanceSamples frequency sampleRate m vd = vs at hs1 hs3
    have hnote : vs.Note = some note := by
      rw [hs3.2.2.2.2.2.1, hsame.2.2.2.2.2.1]; rfl
    have hchan : vs.Channel = channel := by
      rw [hs3.2.2.2.2.2.2, hsame.2.2.2.2.2.2]; rfl
    have hoff : vs.noteOff channel note =
        { vs with
          Stage := AdsrStage.Release, ReleaseFrom := vs.EnvelopeLevel, StageSeconds := 0 } := by
      simp [UnrealWaveVoice.noteOff, hnote, hchan, UnrealWaveVoice.stopNote, hs1]
    rw [hoff]
    refine ⟨rfl, ?_⟩
    generalize hvr : ({ vs with
          Stage := AdsrStage.Release, ReleaseFrom := vs.EnvelopeLevel, StageSeconds := 0 } :
        UnrealWaveVoice) = vr
    have hrel : vr.Stage = AdsrStage.Release := by rw [← hvr]
    obtain ⟨kr, hkr⟩ := exists_samples_covering (vr.ReleaseRateSeconds - vr.StageSeconds)
      sampleRate hrate
    obtain ⟨n2, hr1, hr2, hr3⟩ := release_completes frequency sampleRate hrate kr vr hrel hkr
    refine ⟨n2, ?_⟩
    intro r
    rw [advanceSamples_add, idle_holds frequency sampleRate r _ hr1]
    exact ⟨hr1, hr2, hr3, by simp [UnrealWaveVoice.isFree, hr1]⟩

/-- C17 for the soft voice at 44100 Hz playing note 60 on channel 1. -/
theorem voice_returns_to_idle_witness :
    (0 : Rat) < 44100 ∧
    ∃ n1 : Nat,
      (∀ m : Nat,
        (UnrealWaveVoice.advanceSamples (fun _ => 440) 44100 (n1 + m)
            (softVoice.startNote 1 60)).Stage = AdsrStage.Sustain) ∧
      (∀ m : Nat, ∃ n2 : Nat, ∀ r : Nat,
        (UnrealWaveVoice.advanceSamples (fun _ => 440) 44100 (n2 + r)
          ((UnrealWaveVoice.advanceSamples (fun _ => 440) 44100 (n1 + m)
            (softVoice.startNote 1 60)).noteOff 1 60)).Stage = AdsrStage.Idle ∧
        (UnrealWaveVoice.advanceSamples (fun _ => 440) 44100 (n2 + r)
          ((UnrealWaveVoice.advanceSamples (fun _ => 440) 44100 (n1 + m)
            (softVoice.startNote 1 60)).noteOff 1 60)).EnvelopeLevel = 0) := by
  have hrate : (0 : Rat) < 44100 := by norm_num
  obtain ⟨n1, h1, h2⟩ := voice_returns_to_idle softVoice (fun _ => 440) 44100 1 60 hrate
  refine ⟨hrate, n1, fun m => (h1 m).1, fun m => ?_⟩
  obtain ⟨n2, h3⟩ := (h2 m).2
  exact ⟨n2, fun r => ⟨(h3 r).1, (h3 r).2.1⟩⟩

/-! ### Draining the collector for a block -/

/-- The sample offset lies in the block. -/
theorem sampleOffset_range (blockStartTime sampleRate : Rat) (numSamples : Nat) (t : Rat)
    (hn : 0 < numSamples) :
    0 ≤ MidiMessageCollector.sampleOffset blockStartTime sampleRate numSamples t ∧
    MidiMessageCollector.sampleOffset blockStartTime sampleRate numSamples t < numSamples := by
  unfold MidiMessageCollector.sampleOffset
  constructor
  · exact le_max_left _ _
  · have h1 : min ((numSamples : Int) - 1) ⌊(t - blockStartTime) * sampleRate⌋ ≤
        (numSamples : Int) - 1 := min_le_left _ _
    have h2 : (0 : Int) < numSamples := by exact_mod_cast hn
    rw [max_lt_iff]
    constructor <;> omega

/-- Within the window a later event never gets an earlier sample offset. -/
theorem sampleOffset_mono (blockStartTime sampleRate : Rat) (numSamples : Nat) (t1 t2 : Rat)
    (hstart : blockStartTime ≤ t1) (hle : t1 ≤ t2) :
    MidiMessageCollector.sampleOffset blockStartTime sampleRate numSamples t1 ≤
      MidiMessageCollector.sampleOffset blockStartTime sampleRate numSamples t2 := by
  unfold MidiMessageCollector.sampleOffset
  by_cases hrate : 0 ≤ sampleRate
  · have h : (t1 - blockStartTime) * sampleRate ≤ (t2 - blockStartTime) * sampleRate :=
      mul_le_mul_of_nonneg_right (by linarith) hrate
    exact max_le_max (le_refl _) (min_le_min (le_refl _) (Int.floor_mono h))
  · have hneg : sampleRate ≤ 0 := le_of_lt (not_le.mp hrate)
    have h1 : ⌊(t1 - blockStartTime) * sampleRate⌋ ≤ 0 :=
      Int.floor_nonpos (mul_nonpos_of_nonneg_of_nonpos (by linarith) hneg)
    have h3 : min ((numSamples : Int) - 1) ⌊(t1 - blockStartTime) * sampleRate⌋ ≤ 0 :=
      le_trans (min_le_right _ _) h1
    rw [max_eq_left h3]
    exact le_max_left _ _

/-- C18. In the collector modelled from the spec, for every queue content and
`numSamples > 0`, at a positive sample rate, `removeNextBlockOfMessages` returns every event with an integer sample
offset in `[0, numSamples)`, the offset being the one computed from the event's time stamp;
the events come in time-stamp order and their offsets never decrease; the events returned
are exactly the queued events whose time stamp lies in the block's window, each as often
as it was queued, and none of them stays in the queue, so no later call can deliver it
again; events older than the window are neither returned nor kept; events later than the
window stay queued. -/
theorem removeNextBlockOfMessages_delivers_in_order (blockStartTime : Rat)
    (c : MidiMessageCollector) (numSamples : Nat) (hn : 0 < numSamples)
    (hrate : 0 < c.sampleRate) :
    (∀ e ∈ (c.removeNextBlockOfMessages blockStartTime numSamples).1,
      0 ≤ e.1 ∧ e.1 < numSamples ∧
      e.1 = MidiMessageCollector.sampleOffset blockStartTime c.sampleRate numSamples
        e.2.timeStamp) ∧
    (c.removeNextBlockOfMessages blockStartTime numSamples).1.Pairwise
      (fun a b => a.1 ≤ b.1 ∧ a.2.timeStamp ≤ b.2.timeStamp) ∧
    ((c.removeNextBlockOfMessages blockStartTime numSamples).1.map Prod.snd).Perm
      (c.incomingMessages.filter fun m =>
        decide (blockStartTime ≤ m.timeStamp ∧
          m.timeStamp ≤ blockStartTime + numSamples / c.sampleRate)) ∧
    (∀ e ∈ (c.removeNextBlockOfMessages blockStartTime numSamples).1,
      e.2 ∉ (c.removeNextBlockOfMessages blockStartTime numSamples).2.incomingMessages) ∧
    (∀ (laterStart : Rat) (laterSamples : Nat),
      ∀ e ∈ ((c.removeNextBlockOfMessages blockStartTime numSamples).2.removeNextBlockOfMessages
          laterStart laterSamples).1,
        e.2 ∉ (c.removeNextBlockOfMessages blockStartTime numSamples).1.map Prod.snd) ∧
    (∀ m ∈ c.incomingMessages, m.timeStamp < blockStartTime →
      m ∉ (c.removeNextBlockOfMessages blockStartTime numSamples).1.map Prod.snd ∧
      m ∉ (c.removeNextBlockOfMessages blockStartTime numSamples).2.incomingMessages) ∧
    (c.removeNextBlockOfMessages blockStartTime numSamples).2.incomingMessages =
      c.incomingMessages.filter fun m =>
        decide (blockStartTime + numSamples / c.sampleRate < m.timeStamp) := by
  letI : IsTotal MidiMessage (fun a b => a.timeStamp ≤ b.timeStamp) :=
    ⟨fun a b => le_total a.timeStamp b.timeStamp⟩
  letI : IsTrans MidiMessage (fun a b => a.timeStamp ≤ b.timeStamp) :=
    ⟨fun a b d hab hbd => le_trans hab hbd⟩
  -- membership in the returned list
  have hmem : ∀ m : MidiMessage,
      m ∈ (c.removeNextBlockOfMessages blockStartTime numSamples).1.map Prod.snd ↔
        m ∈ c.incomingMessages ∧ blockStartTime ≤ m.timeStamp ∧
          m.timeStamp ≤ blockStartTime + numSamples / c.sampleRate := by
    intro m
    simp only [MidiMessageCollector.removeNextBlockOfMessages, List.map_map]
    have : (Prod.snd ∘ fun m : MidiMessage =>
        (MidiMessageCollector.sampleOffset blockStartTime c.sampleRate numSamples m.timeStamp, m)) =
        id := rfl
    rw [this, List.map_id, List.mem_insertionSort]
    simp only [List.mem_filter, decide_eq_true_eq]
    tauto
  have hkept : ∀ m : MidiMessage,
      m ∈ (c.removeNextBlockOfMessages blockStartTime numSamples).2.incomingMessages ↔
        m ∈ c.incomingMessages ∧ blockStartTime + numSamples / c.sampleRate < m.timeStamp := by
    intro m
    simp [MidiMessageCollector.removeNextBlockOfMessages]
  have hsnd : ∀ e ∈ (c.removeNextBlockOfMessages blockStartTime numSamples).1,
      e.2 ∈ (c.removeNextBlockOfMessages blockStartTime numSamples).1.map Prod.snd :=
    fun e he => List.mem_map_of_mem _ he
  refine ⟨?_, ?_, ?_, ?_, ?_, ?_, rfl⟩
  · intro e he
    simp only [MidiMessageCollector.removeNextBlockOfMessages, List.mem_map] at he
    obtain ⟨m, _, rfl⟩ := he
    exact ⟨(sampleOffset_range _ _ _ _ hn).1, (sampleOffset_range _ _ _ _ hn).2, rfl⟩
  · simp only [MidiMessageCollector.removeNextBlockOfMessages]
    rw [List.pairwise_map]
    have hsorted := List.sorted_insertionSort (fun a b : MidiMessage => a.timeStamp ≤ b.timeStamp)
      ((c.incomingMessages.filter fun m =>
          decide (m.timeStamp ≤ blockStartTime + numSamples / c.sampleRate)).filter fun m =>
        decide (blockStartTime ≤ m.timeStamp))
    refine List.Pairwise.imp_of_mem ?_ hsorted
    intro a b ha _ hab
    have ha2 : blockStartTime ≤ a.timeStamp := by
      rw [List.mem_insertionSort] at ha
      simp only [List.mem_filter, decide_eq_true_eq] at ha
      exact ha.2
    exact ⟨sampleOffset_mono _ _ _ _ _ ha2 hab, hab⟩
  · simp only [MidiMessageCollector.removeNextBlockOfMessages, List.map_map]
    have : (Prod.snd ∘ fun m : MidiMessage =>
        (MidiMessageCollector.sampleOffset blockStartTime c.sampleRate numSamples m.timeStamp, m)) =
        id := rfl
    rw [this, List.map_id]
    refine (List.perm_insertionSort _ _).trans ?_
    rw [List.filter_filter]
    apply List.Perm.of_eq
    apply List.filter_congr
    intro m _
    simp
  · intro e he hcon
    have h1 := (hmem e.2).mp (hsnd e he)
    have h2 := (hkept e.2).mp hcon
    linarith [h1.2.2, h2.2]
  · intro laterStart laterSamples e he hcon
    have h1 := (hmem e.2).mp hcon
    have h2 : e.2 ∈ (c.removeNextBlockOfMessages blockStartTime numSamples).2.incomingMessages := by
      simp only [MidiMessageCollector.removeNextBlockOfMessages, List.mem_map] at he
      obtain ⟨m, hm, rfl⟩ := he
      rw [List.mem_insertionSort] at hm
      simp only [List.mem_filter] at hm
      exact (hkept m).mpr (by simpa using hm.1.1)
    have h3 := (hkept e.2).mp h2
    linarith [h1.2.2, h3.2]
  · intro m _ hold
    constructor
    · intro hcon
      have := (hmem m).mp hcon
      linarith [this.2.1]
    · intro hcon
      have h2 := (hkept m).mp hcon
      have hwin : (0 : Rat) ≤ numSamples / c.sampleRate := by positivity
      linarith [h2.2]

/-- C18 on a queue of four events at 1000 Hz, drained for the 100-sample block that starts
at 1 s: the event at 0.5 s is older than the window and is dropped, the events at 1.05 s
and 1.02 s are the ones returned, and the event at 2 s stays queued. -/
theorem removeNextBlockOfMessages_delivers_in_order_witness :
    0 < 100 ∧ (0 : Rat) < busyCollector.sampleRate ∧
    (∀ e ∈ (busyCollector.removeNextBlockOfMessages 1 100).1, 0 ≤ e.1 ∧ e.1 < (100 : Nat)) ∧
    (busyCollector.removeNextBlockOfMessages 1 100).1.Pairwise
      (fun a b => a.1 ≤ b.1 ∧ a.2.timeStamp ≤ b.2.timeStamp) ∧
    (busyCollector.removeNextBlockOfMessages 1 100).2.incomingMessages =
      busyCollector.incomingMessages.filter fun m =>
        decide (1 + (100 : Nat) / busyCollector.sampleRate < m.timeStamp) := by
  have hrate : (0 : Rat) < busyCollector.sampleRate := by norm_num [busyCollector]
  have h := removeNextBlockOfMessages_delivers_in_order 1 busyCollector 100 (by norm_num) hrate
  exact ⟨by norm_num, hrate, fun e he => ⟨(h.1 e he).1, (h.1 e he).2.1⟩, h.2.1, h.2.2.2.2.2.2⟩

end JUCEUnrealBridge
